import Mathlib

/-!
Verification of the betterbrowse snapshot pipeline.

This file is a shallow embedding, in Lean 4, of the pure core of the
betterbrowse browser-automation library:

* `src/browser.js`      — `axTreeToSnapshot` (outline builder) and the
  ref-resolution guards of `clickRef` / `fillRef` / `hover` / `selectOption`;
* `src/snapshot-optimizer.js` — the reducer pipeline (`stripChrome`,
  `pruneAttributes`, `removeNoise`, `dedupLinks`,
  `collapseRedundantChildren`, `semanticCompress`, `truncateLongNames`,
  `smartTruncate`, `optimizeAll`);
* `src/snapshot-differ.js`    — `parseElements` / `computeDiff`.

JavaScript strings are modelled as `List Char` (wrapped in `String` at the
API boundary); the handful of regular expressions the source uses are
embedded as hand-written deterministic matchers that follow the
backtracking semantics of each concrete pattern (each matcher is documented
next to the pattern it implements).  JS `Map`s are modelled as association
lists in insertion order.  All definitions are structural recursions (a
`Nat` fuel argument stands in for loops whose index jumps forward), so
every definition evaluates by kernel reduction.
-/

set_option maxRecDepth 20000

namespace BetterBrowse

/-! ## Character classes (JS regex `\s`, `\w`, `\d` on the ASCII range) -/

/-- JS regex `\s` restricted to ASCII (space, tab, LF, VT, FF, CR).
Outline text is ASCII, so this coincides with JS semantics on all inputs
in scope. -/
def isWs (c : Char) : Bool :=
  c = ' ' || c = '\t' || c = '\n' || c = '\x0b' || c = '\x0c' || c = '\r'

/-- JS regex `\w` = `[A-Za-z0-9_]`. -/
def isWordChar (c : Char) : Bool :=
  ('a' ≤ c && c ≤ 'z') || ('A' ≤ c && c ≤ 'Z') || ('0' ≤ c && c ≤ '9') || c = '_'

/-- JS regex `\d` = `[0-9]`. -/
def isDigitCh (c : Char) : Bool :=
  '0' ≤ c && c ≤ '9'

/-- `String.prototype.toLowerCase` on the ASCII range (all roles and names
in scope are ASCII). -/
def lowerCh (c : Char) : Char :=
  if 'A' ≤ c && c ≤ 'Z' then Char.ofNat (c.toNat + 32) else c

def lowerStr (s : List Char) : List Char := s.map lowerCh

/-- Case-insensitive character comparison (for `/.../i` patterns). -/
def chEqCI (a b : Char) : Bool := lowerCh a = lowerCh b

/-! ## Basic line / string utilities -/

/-- Split on `'\n'`, exactly as `String.prototype.split('\n')`. -/
def splitLinesAux : List Char → List Char → List (List Char)
  | [], acc => [acc.reverse]
  | c :: rest, acc =>
    if c = '\n' then acc.reverse :: splitLinesAux rest []
    else splitLinesAux rest (c :: acc)

def splitLines (s : List Char) : List (List Char) := splitLinesAux s []

/-- `Array.prototype.join('\n')`. -/
def joinLines : List (List Char) → List Char
  | [] => []
  | [l] => l
  | l :: ls => l ++ '\n' :: joinLines ls

/-- Leading whitespace of a line (regex `^(\s*)`). -/
def leadingWs (l : List Char) : List Char := l.takeWhile isWs

/-- `indentLevel` of snapshot-optimizer.js: `Math.floor(ws.length / 2)`. -/
def indentLevel (l : List Char) : Nat := (leadingWs l).length / 2

/-- Literal (case-sensitive) prefix test. -/
def startsWithLit : List Char → List Char → Bool
  | [], _ => true
  | _ :: _, [] => false
  | p :: ps, c :: cs => p = c && startsWithLit ps cs

/-- Case-insensitive literal prefix test. -/
def startsWithCI : List Char → List Char → Bool
  | [], _ => true
  | _ :: _, [] => false
  | p :: ps, c :: cs => chEqCI p c && startsWithCI ps cs

/-- Substring containment (case-sensitive), i.e. `String.prototype.includes`. -/
def containsSub (s pat : List Char) : Bool :=
  match s with
  | [] => startsWithLit pat []
  | _ :: rest => startsWithLit pat s || containsSub rest pat

/-- Substring containment, case-insensitive. -/
def containsSubCI (s pat : List Char) : Bool :=
  match s with
  | [] => startsWithCI pat []
  | _ :: rest => startsWithCI pat s || containsSubCI rest pat

/-- `String.prototype.trim` (both ends, `\s`). -/
def trimStr (s : List Char) : List Char :=
  ((s.dropWhile isWs).reverse.dropWhile isWs).reverse

/-- `String.prototype.trimStart`. -/
def trimStartStr (s : List Char) : List Char := s.dropWhile isWs

/-- Decimal digits of `n`, most significant first (matches JS `${n}` for
natural numbers).  Fuel-based so that it reduces in the kernel. -/
def natDigitsAux : Nat → Nat → List Char
  | 0, _ => []
  | fuel + 1, n =>
    if n < 10 then [Char.ofNat (48 + n)]
    else natDigitsAux fuel (n / 10) ++ [Char.ofNat (48 + n % 10)]

def natDigits (n : Nat) : List Char := natDigitsAux (n + 1) n

/-- Parse a digit string to a `Nat` (JS `Number(...)` on an all-digit string). -/
def digitsToNat (ds : List Char) : Nat :=
  ds.foldl (fun acc c => acc * 10 + (c.toNat - 48)) 0

/-! ## The `[ref=e<n>]` pattern

`REF_PATTERN = /\[ref=(e\d+)\]/` of snapshot-optimizer.js. -/

def refLit : List Char := '[' :: 'r' :: 'e' :: 'f' :: '=' :: 'e' :: []

/-- Try `REF_PATTERN` anchored at the head of `s`.  On success returns the
captured group (`e` + digits) and the length of the whole match. -/
def matchRefAt (s : List Char) : Option (List Char × Nat) :=
  if startsWithLit refLit s then
    let rest := s.drop 6
    let ds := rest.takeWhile isDigitCh
    if ds = [] then none
    else if startsWithLit [']'] (rest.drop ds.length) then
      some ('e' :: ds, 6 + ds.length + 1)
    else none
  else none

/-- All matches of `REF_PATTERN_GLOBAL` (captured groups, left to right).

The scan tries every position of `s`.  This agrees with the JS global scan
(which resumes after each match) because the pattern contains a single `[`,
so no match can begin inside another match. -/
def collectRefsL : List Char → List (List Char)
  | [] => []
  | c :: rest =>
    match matchRefAt (c :: rest) with
    | some (r, _) => r :: collectRefsL rest
    | none => collectRefsL rest

/-- `collectRefs` of snapshot-optimizer.js applied to a whole string
(the source maps `matchAll` over an array of lines and concatenates;
over the joined string this yields the same list, since the pattern
cannot match across a newline). -/
def collectRefsStr (s : String) : List String :=
  (collectRefsL s.data).map List.asString

/-! ## Generic left-to-right replace scans

`String.prototype.replace` with a global regex: scan left to right; on a
match, emit the replacement and resume after the match; otherwise advance
one character.  All matchers used below consume at least one character on
success, so a fuel of `s.length` always suffices; the fuel only exists to
make the recursion structural. -/

def scanReplace (m : List Char → Option (Nat × List Char)) :
    Nat → List Char → List Char
  | 0, s => s
  | _ + 1, [] => []
  | fuel + 1, c :: rest =>
    match m (c :: rest) with
    | some (n, repl) => repl ++ scanReplace m fuel ((c :: rest).drop n)
    | none => c :: scanReplace m fuel rest

/-- Replace scan threading a state through the matcher (used for the
ref-placeholder extraction in `pruneAttributes`). -/
def scanReplaceSt {σ : Type} (m : σ → List Char → Option (Nat × List Char × σ)) :
    Nat → σ → List Char → List Char × σ
  | 0, st, s => (s, st)
  | _ + 1, st, [] => ([], st)
  | fuel + 1, st, c :: rest =>
    match m st (c :: rest) with
    | some (n, repl, st') =>
      let r := scanReplaceSt m fuel st' ((c :: rest).drop n)
      (repl ++ r.1, r.2)
    | none =>
      let r := scanReplaceSt m fuel st rest
      (c :: r.1, r.2)

/-- Replace scan that also tracks the previous character (needed for the
`\b` word boundaries in `semanticCompress`).  On a match the new previous
character is the last character of the matched text. -/
def scanReplaceB (m : Option Char → List Char → Option (Nat × List Char)) :
    Nat → Option Char → List Char → List Char
  | 0, _, s => s
  | _ + 1, _, [] => []
  | fuel + 1, prev, c :: rest =>
    match m prev (c :: rest) with
    | some (n, repl) =>
      repl ++ scanReplaceB m fuel ((c :: rest).get? (n - 1)) ((c :: rest).drop n)
    | none => c :: scanReplaceB m fuel (some c) rest

/-! ## snapshot-optimizer.js — role sets and line grammar -/

/-- `INTERACTIVE_ROLES` (identical lists appear in snapshot-optimizer.js and
browser.js). -/
def INTERACTIVE_ROLES : List (List Char) :=
  ["button", "link", "textbox", "checkbox", "radio", "combobox", "listbox",
   "menuitem", "menuitemcheckbox", "menuitemradio", "option", "searchbox",
   "slider", "spinbutton", "switch", "tab", "treeitem"].map String.data

def CONTENT_ROLES : List (List Char) :=
  ["heading", "cell", "gridcell", "columnheader", "rowheader",
   "listitem", "article", "region", "main", "navigation"].map String.data

def STRUCTURAL_ROLES : List (List Char) :=
  ["generic", "group", "list", "table", "row", "rowgroup", "grid",
   "treegrid", "menu", "menubar", "toolbar", "tablist", "tree",
   "directory", "document", "application", "presentation", "none"].map String.data

/-- First match of `REF_PATTERN` anywhere in `s` (captured group). -/
def findRefIn : List Char → Option (List Char)
  | [] => none
  | c :: rest =>
    match matchRefAt (c :: rest) with
    | some (r, _) => some r
    | none => findRefIn rest

/-- Result of `parseLine` (snapshot-optimizer.js).  `pfx` is the source's
`prefix` capture (`\s*-\s*`), `sfx` its `suffix` capture (everything after
the role / optional quoted name). -/
structure PLine where
  pfx : List Char
  role : List Char
  name : Option (List Char)
  sfx : List Char
  ref : Option (List Char)
  raw : List Char
  deriving Repr, DecidableEq

/-- `parseLine`: the regex `^(\s*-\s*)(\w+)(?:\s+"([^"]*)")?(.*)$`.

The regex is deterministic up to one backtracking point: if the optional
name group `\s+"([^"]*)"` fails (no `"` after the whitespace, or an
unterminated quote), the engine retries with the group absent and `(.*)`
then captures everything after the role, whitespace included. -/
def parseLine (line : List Char) : Option PLine :=
  let ws1 := line.takeWhile isWs
  match line.dropWhile isWs with
  | '-' :: r2 =>
    let ws2 := r2.takeWhile isWs
    let r3 := r2.dropWhile isWs
    let role := r3.takeWhile isWordChar
    if role = [] then none
    else
      let rest := r3.dropWhile isWordChar
      let sp := rest.takeWhile isWs
      let afterSp := rest.dropWhile isWs
      let nameRes : Option (List Char × List Char) :=
        if sp.isEmpty then none
        else
          match afterSp with
          | '"' :: inner =>
            let nm := inner.takeWhile (· != '"')
            match inner.drop nm.length with
            | '"' :: r4 => some (nm, r4)
            | _ => none
          | _ => none
      match nameRes with
      | some (nm, r4) =>
        some ⟨ws1 ++ '-' :: ws2, lowerStr role, some nm, r4, findRefIn r4, line⟩
      | none =>
        some ⟨ws1 ++ '-' :: ws2, lowerStr role, none, rest, findRefIn rest, line⟩
  | _ => none

/-- `buildLine` (snapshot-optimizer.js). -/
def buildLine (pfx role : List Char) (name : Option (List Char)) (sfx : List Char) :
    List Char :=
  pfx ++ role ++ (match name with
                  | some nm => ' ' :: '"' :: (nm ++ ['"'])
                  | none => []) ++ sfx

/-- `getSubtreeEnd` (snapshot-optimizer.js): first index after `startIdx`
whose indent is not deeper than the start line's. -/
def subtreeEndAux (lines : List (List Char)) (startIndent : Nat) :
    Nat → Nat → Nat
  | 0, e => e
  | fuel + 1, e =>
    if e < lines.length then
      if startIndent < indentLevel (lines.getD e []) then
        subtreeEndAux lines startIndent fuel (e + 1)
      else e
    else e

def getSubtreeEnd (lines : List (List Char)) (startIdx : Nat) : Nat :=
  subtreeEndAux lines (indentLevel (lines.getD startIdx [])) lines.length (startIdx + 1)

/-! ## `removeNoise` (snapshot-optimizer.js § 2h) -/

/-- `/^\s*- \/placeholder:/` -/
def isPlaceholderLine (l : List Char) : Bool :=
  startsWithLit ("- /placeholder:".data) (l.dropWhile isWs)

/-- `/^\s*- text:\s*$/` -/
def isEmptyTextLine (l : List Char) : Bool :=
  let r := l.dropWhile isWs
  startsWithLit ("- text:".data) r && (r.drop 7).all isWs

/-- `/^\s*- text: "\s*"$/` -/
def isWsTextLine (l : List Char) : Bool :=
  let r := l.dropWhile isWs
  startsWithLit ("- text: \"".data) r && (r.drop 9).dropWhile isWs = ['"']

def removeNoiseL (lines : List (List Char)) : List (List Char) :=
  lines.filter fun l => !(isPlaceholderLine l || isEmptyTextLine l || isWsTextLine l)

def removeNoise (snapshot : String) : String :=
  (joinLines (removeNoiseL (splitLines snapshot.data))).asString

/-! ## `truncateLongNames` (snapshot-optimizer.js § 2g) -/

/-- `name.replace(/\s\S*$/, '')`: the pattern can only match at the last
whitespace character (any earlier whitespace is followed by more
whitespace before the end, which `\S*$` cannot absorb), so it deletes
from the last whitespace character to the end; with no whitespace there
is no match. -/
def stripLastWsWord (s : List Char) : List Char :=
  let rev := s.reverse
  let tail := rev.takeWhile (fun c => !isWs c)
  match rev.drop tail.length with
  | [] => s
  | _ :: restRev => restRev.reverse

def truncateLongNamesLine (maxNameLength : Nat) (l : List Char) : List Char :=
  match parseLine l with
  | some p =>
    match p.name with
    | some nm =>
      if maxNameLength < nm.length then
        buildLine p.pfx p.role (some (stripLastWsWord (nm.take maxNameLength) ++ ("...".data))) p.sfx
      else l
    | none => l
  | none => l

def truncateLongNames (snapshot : String) (maxNameLength : Nat := 120) : String :=
  (joinLines ((splitLines snapshot.data).map (truncateLongNamesLine maxNameLength))).asString

/-! ## `stripChrome` (snapshot-optimizer.js § 2a) -/

/-- `isChromeLine` (the source also receives `lines, idx` but only uses
`indentLevel(lines[idx])`, the current line's indent). -/
def isChromeLine (p : PLine) (indent : Nat) : Bool :=
  if p.role = ("banner".data) || p.role = ("contentinfo".data) then true
  else if p.role = ("navigation".data) && indent ≤ 1 then true
  else if (match p.name with
           | some nm =>
             (containsSubCI nm ("skip to".data) || containsSubCI nm ("cookie".data) ||
              containsSubCI nm ("privacy".data) || containsSubCI nm ("terms of service".data)) &&
             indent ≤ 1
           | none => false) then true
  else (match p.name with
        | some nm =>
          startsWithCI ("Advertisement".data) nm || startsWithCI ("Promoted".data) nm ||
          startsWithCI ("Sponsored".data) nm
        | none => false)

/-- A ref rescued from a stripped chrome subtree (`{ ref, role, name }`). -/
structure CRef where
  cref : List Char
  crole : List Char
  cname : Option (List Char)
  deriving Repr, DecidableEq

/-- The main loop of `stripChrome`.  `skipU` models `skipUntilIndent`
(`none` = `-1`).  Returns the kept lines and the rescued chrome refs. -/
def stripChromeGo : Option Nat → List (List Char) →
    List (List Char) × List CRef
  | _, [] => ([], [])
  | skipU, l :: rest =>
    let indent := indentLevel l
    let inSkip := match skipU with
                  | some k => decide (k < indent)
                  | none => false
    if inSkip then
      let extra : List CRef :=
        match parseLine l with
        | some p =>
          match p.ref with
          | some r =>
            if INTERACTIVE_ROLES.contains p.role then [⟨r, p.role, p.name⟩] else []
          | none => []
        | none => []
      let r := stripChromeGo skipU rest
      (r.1, extra ++ r.2)
    else
      -- skipUntilIndent is reset to -1 and the line is processed normally
      match parseLine l with
      | some p =>
        if isChromeLine p indent then
          let extra : List CRef :=
            match p.ref with
            | some r =>
              if INTERACTIVE_ROLES.contains p.role then [⟨r, p.role, p.name⟩] else []
            | none => []
          let r := stripChromeGo (some indent) rest
          (r.1, extra ++ r.2)
        else
          let r := stripChromeGo none rest
          (l :: r.1, r.2)
      | none =>
        let r := stripChromeGo none rest
        (l :: r.1, r.2)

/-- `` `  - ${r.role}${name} [ref=${r.ref}]` `` (an empty rescued name is
falsy in JS and is omitted). -/
def chromeRefLine (r : CRef) : List Char :=
  ' ' :: ' ' :: '-' :: ' ' :: r.crole ++
    (match r.cname with
     | some nm => if nm.isEmpty then [] else ' ' :: '"' :: (nm ++ ['"'])
     | none => []) ++
    (" [ref=".data ++ r.cref ++ [']'])

def stripChrome (snapshot : String) : String :=
  let r := stripChromeGo none (splitLines snapshot.data)
  let out := if r.2.isEmpty then r.1
             else r.1 ++ (("- group \"chrome-actions\"".data) :: r.2.map chromeRefLine)
  (joinLines out).asString

/-! ## `dedupLinks` (snapshot-optimizer.js § 2a2) -/

/-- One entry of the article `scopeStack` (head of the list = top of the
JS stack). -/
structure Scope where
  sindent : Nat
  seenNames : List (List Char)
  deriving Repr, DecidableEq

def popScopes (indent : Nat) : List Scope → List Scope
  | [] => []
  | sc :: s => if indent ≤ sc.sindent then popScopes indent s else sc :: s

/-- Main loop of `dedupLinks` (index-based because a duplicate link skips
its whole subtree: `i = end - 1`).  `fuel` only makes the recursion
structural; the index strictly increases, so `lines.length + 1` always
suffices. -/
def dedupLinksGo (lines : List (List Char)) :
    Nat → Nat → List Scope → List (List Char)
  | 0, _, _ => []
  | fuel + 1, i, stack =>
    if i < lines.length then
      let line := lines.getD i []
      let indent := indentLevel line
      let stack1 := popScopes indent stack
      match parseLine line with
      | some p =>
        if p.role = ("article".data) then
          line :: dedupLinksGo lines fuel (i + 1) (⟨indent, []⟩ :: stack1)
        else
          let isDupLink :=
            p.role = ("link".data) &&
            (match p.name with
             | some nm => !nm.isEmpty && (match stack1 with
                                          | sc :: _ => sc.seenNames.contains nm
                                          | [] => false)
             | none => false)
          if isDupLink then
            dedupLinksGo lines fuel (getSubtreeEnd lines i) stack1
          else
            let stack2 :=
              if p.role = ("link".data) then
                match p.name, stack1 with
                | some nm, sc :: s =>
                  if nm.isEmpty then stack1 else { sc with seenNames := nm :: sc.seenNames } :: s
                | _, _ => stack1
              else stack1
            if p.role = ("img".data) && (match p.name with
                                         | some nm => nm.isEmpty
                                         | none => true) then
              dedupLinksGo lines fuel (i + 1) stack2
            else
              line :: dedupLinksGo lines fuel (i + 1) stack2
      | none =>
        line :: dedupLinksGo lines fuel (i + 1) stack1
    else []

def dedupLinks (snapshot : String) : String :=
  let lines := splitLines snapshot.data
  (joinLines (dedupLinksGo lines (lines.length + 1) 0 [])).asString

/-! ## `collapseRedundantChildren` (snapshot-optimizer.js § 2f) -/

/-- Words of a child name longer than 3 characters
(`name.toLowerCase().split(/\s+/).filter(w => w.length > 3)`; the empty
fragments a leading/trailing separator produces are removed by the same
length filter). -/
def childWords (nm : List Char) : List (List Char) :=
  ((lowerStr nm).splitOnP isWs).filter (fun w => 3 < w.length)

/-- The redundancy scan over the children `lines[i+1 .. subtreeEnd)`.
Returns `allRedundant`.  The comparison
`contained.length < childWords.length * 0.6` is modelled exactly over the
rationals as `5 * contained < 3 * words`; the JS double computation agrees
with this for every list length below `2^50`. -/
def allRedundantChildren (parentNameLower : List Char) : List (List Char) → Bool
  | [] => true
  | l :: rest =>
    match parseLine l with
    | none => false
    | some child =>
      if child.ref.isSome && INTERACTIVE_ROLES.contains child.role then false
      else
        match child.name with
        | some nm =>
          let ws := childWords nm
          let contained := ws.filter (fun w => containsSub parentNameLower w)
          if 5 * contained.length < 3 * ws.length then false
          else allRedundantChildren parentNameLower rest
        | none => allRedundantChildren parentNameLower rest

def collapseRedundantChildrenGo (lines : List (List Char)) :
    Nat → Nat → List (List Char)
  | 0, _ => []
  | fuel + 1, i =>
    if i < lines.length then
      let line := lines.getD i []
      let collapse :=
        match parseLine line with
        | some p =>
          (match p.name with
           | some nm => !nm.isEmpty && 40 < nm.length
           | none => false) &&
          (p.role = ("link".data) || p.role = ("button".data))
        | none => false
      if collapse then
        let subtreeEnd := getSubtreeEnd lines i
        let childLines := ((lines.drop (i + 1)).take (subtreeEnd - (i + 1)))
        let parentNameLower :=
          match parseLine line with
          | some p => lowerStr (p.name.getD [])
          | none => []
        if allRedundantChildren parentNameLower childLines && i + 1 < subtreeEnd then
          line :: collapseRedundantChildrenGo lines fuel subtreeEnd
        else
          line :: collapseRedundantChildrenGo lines fuel (i + 1)
      else
        line :: collapseRedundantChildrenGo lines fuel (i + 1)
    else []

def collapseRedundantChildren (snapshot : String) : String :=
  let lines := splitLines snapshot.data
  (joinLines (collapseRedundantChildrenGo lines (lines.length + 1) 0)).asString

/-! ## `pruneAttributes` (snapshot-optimizer.js § 2b) -/

/-- `/^\s*- \/url:/` -/
def isUrlLine (l : List Char) : Bool :=
  startsWithLit ("- /url:".data) (l.dropWhile isWs)

/-- Full `REF_PATTERN` match at the head: the whole matched text and its
length. -/
def matchRefFullAt (s : List Char) : Option (List Char × Nat) :=
  (matchRefAt s).map (fun r => (s.take r.2, r.2))

/-- `` `__REF_${k}__` `` -/
def refPlaceholder (k : Nat) : List Char :=
  ("__REF_".data) ++ natDigits k ++ ("__".data)

/-- `cleaned.replace(REF_PATTERN_GLOBAL, m => { refs.push(m); return placeholder })`:
extract every ref tag, replacing it with an indexed placeholder.  The
state is the list of extracted full matches, most recent first (reversed
at the end). -/
def extractRefsMatcher (st : List (List Char)) (s : List Char) :
    Option (Nat × List Char × List (List Char)) :=
  match matchRefFullAt s with
  | some (full, n) => some (n, refPlaceholder st.length, full :: st)
  | none => none

def extractRefs (l : List Char) : List Char × List (List Char) :=
  let r := scanReplaceSt extractRefsMatcher l.length [] l
  (r.1, r.2.reverse)

/-- Hostname and pathname of a URL, as `new URL(url)` computes them for
well-formed simple `http(s)` URLs.  Modelled from the WHATWG behaviour the
source relies on: the authority runs to the first `/`, `?` or `#`;
userinfo (up to a final `@`) and a `:port` are not part of `hostname`,
which is lowercased; `pathname` runs from the first `/` to the first `?`
or `#` and is `/` when the URL has no path.  An empty host makes the
constructor throw, modelled as `none`.  (No claim in this file depends on
this function's fine structure; it only has to be total and executable.) -/
def urlHostPath (url : List Char) : Option (List Char) :=
  let afterScheme :=
    if startsWithLit ("https://".data) url then some (url.drop 8)
    else if startsWithLit ("http://".data) url then some (url.drop 7)
    else none
  match afterScheme with
  | none => none
  | some rest =>
    let authority := rest.takeWhile (fun c => c != '/' && c != '?' && c != '#')
    let afterAuth := rest.drop authority.length
    let hostPort :=
      if authority.contains '@' then
        (authority.reverse.takeWhile (· != '@')).reverse
      else authority
    let host :=
      if hostPort.contains ':' then hostPort.takeWhile (· != ':')
      else hostPort
    if host.isEmpty then none
    else
      let path := afterAuth.takeWhile (fun c => c != '?' && c != '#')
      some (lowerStr host ++ (if path.isEmpty then ['/'] else path))

/-- `cleaned.replace(/ "(https?:\/\/[^"]+)"/g, ...)`: a quoted URL name is
shortened to `host + path`; if `new URL` throws, the match is kept
verbatim (the `catch` branch). -/
def urlShortenMatcher (s : List Char) : Option (Nat × List Char) :=
  match s with
  | ' ' :: '"' :: rest =>
    if startsWithLit ("http".data) rest then
      let url := rest.takeWhile (· != '"')
      let afterUrl := rest.drop url.length
      -- `https?:\/\/[^"]+` : scheme check plus at least one more character,
      -- and the closing quote must be present
      let schemeOk :=
        (startsWithLit ("http://".data) url && 7 < url.length) ||
        (startsWithLit ("https://".data) url && 8 < url.length)
      match afterUrl with
      | '"' :: _ =>
        if schemeOk then
          let matchLen := 2 + url.length + 1
          match urlHostPath url with
          | some hp => some (matchLen, ' ' :: '"' :: (hp ++ ['"']))
          | none => some (matchLen, s.take matchLen)
        else none
      | _ => none
    else none
  | _ => none

/-- Matcher for `\s*\[<lit><body>\]` where `body` is `[^\]]*` (for
`[url=...]`), empty (for the fixed attributes), or `\d+` (for
`[level=N]`).  `\s*` is greedy and exact: giving back a whitespace
character would leave a whitespace where `[` is required. -/
inductive AttrBody | anyNonBracket | exact0 | digits1
  deriving Repr, DecidableEq

def attrMatcher (lit : List Char) (body : AttrBody) (s : List Char) :
    Option (Nat × List Char) :=
  let ws := s.takeWhile isWs
  let rest := s.drop ws.length
  if startsWithLit lit rest then
    let afterLit := rest.drop lit.length
    match body with
    | .anyNonBracket =>
      let b := afterLit.takeWhile (· != ']')
      match afterLit.drop b.length with
      | ']' :: _ => some (ws.length + lit.length + b.length + 1, [])
      | _ => none
    | .exact0 =>
      match afterLit with
      | ']' :: _ => some (ws.length + lit.length + 1, [])
      | _ => none
    | .digits1 =>
      let b := afterLit.takeWhile isDigitCh
      if b.isEmpty then none
      else
        match afterLit.drop b.length with
        | ']' :: _ => some (ws.length + lit.length + b.length + 1, [])
        | _ => none
  else none

/-- `/__REF_(\d+)__/g` restore: an out-of-range index inserts the string
`"undefined"` (the JS callback returns `undefined`). -/
def restoreRefsMatcher (refs : List (List Char)) (s : List Char) :
    Option (Nat × List Char) :=
  if startsWithLit ("__REF_".data) s then
    let ds := (s.drop 6).takeWhile isDigitCh
    if ds.isEmpty then none
    else if startsWithLit ("__".data) ((s.drop 6).drop ds.length) then
      some (6 + ds.length + 2, (refs.getD (digitsToNat ds) ("undefined".data)))
    else none
  else none

def pruneAttributesLine (l : List Char) : List Char :=
  let er := extractRefs l
  let c1 := er.1
  let refs := er.2
  let c2 := scanReplace urlShortenMatcher c1.length c1
  let c3 := scanReplace (attrMatcher ("[url=".data) .anyNonBracket) c2.length c2
  let c4 := scanReplace (attrMatcher ("[description=\"\"".data) .exact0) c3.length c3
  let c5 := scanReplace (attrMatcher ("[focused".data) .exact0) c4.length c4
  let c6 := scanReplace (attrMatcher ("[disabled=false".data) .exact0) c5.length c5
  let c7 := scanReplace (attrMatcher ("[level=".data) .digits1) c6.length c6
  scanReplace (restoreRefsMatcher refs) c7.length c7

def pruneAttributes (snapshot : String) : String :=
  (joinLines (((splitLines snapshot.data).filter (fun l => !isUrlLine l)).map
    pruneAttributesLine)).asString

/-! ## `semanticCompress` / `compressFlightName` (snapshot-optimizer.js § 2c)

Each regex of the source is embedded as a deterministic search that
explores the engine's alternatives in the engine's order: positions left
to right; at a position, greedy pieces longest-first and lazy pieces
shortest-first, with alternatives at later choice points exhausted before
earlier ones backtrack.  Wherever a greedy `\s*`/`\s+` is followed by a
piece that cannot match whitespace, only the maximal split can succeed and
no backtracking is implemented for it. -/

def upperCh (c : Char) : Char :=
  if 'a' ≤ c && c ≤ 'z' then Char.ofNat (c.toNat - 32) else c

/-- First position (left to right) where the anchored matcher succeeds. -/
def findFirst {α : Type} (m : List Char → Option α) : List Char → Option α
  | [] => none
  | c :: rest =>
    match m (c :: rest) with
    | some a => some a
    | none => findFirst m rest

def firstSome {α β : Type} (f : α → Option β) : List α → Option β
  | [] => none
  | a :: as =>
    match f a with
    | some b => some b
    | none => firstSome f as

def dropCI (lit s : List Char) : Option (List Char) :=
  if startsWithCI lit s then some (s.drop lit.length) else none

/-- Splits `(taken, rest)` of the leading whitespace run, longest first
(the exploration order of a greedy `\s*` that may backtrack). -/
def wsSplitsDesc (s : List Char) : List (List Char × List Char) :=
  let m := (s.takeWhile isWs).length
  ((List.range (m + 1)).reverse).map (fun i => (s.take i, s.drop i))

/-- Splits `(taken, rest)` for a lazy `cls+?`, shortest first, length ≥ 1. -/
def lazySplitsAsc (cls : Char → Bool) (s : List Char) : List (List Char × List Char) :=
  let m := (s.takeWhile cls).length
  (List.range m).map (fun j => (s.take (j + 1), s.drop (j + 1)))

/-- `/(?:From\s+)?(\d+)\s*US\s*dollars?/i` anchored at the head; returns
the digit capture. -/
def priceAt (s : List Char) : Option (List Char) :=
  let core (t : List Char) : Option (List Char) :=
    let ds := t.takeWhile isDigitCh
    if ds.isEmpty then none
    else
      let t1 := (t.drop ds.length).dropWhile isWs
      match dropCI ("us".data) t1 with
      | some t2 =>
        match dropCI ("dollar".data) (t2.dropWhile isWs) with
        | some _ => some ds
        | none => none
      | none => none
  match dropCI ("from".data) s with
  | some t =>
    let ws := t.takeWhile isWs
    match (if ws.isEmpty then none else core (t.drop ws.length)) with
    | some ds => some ds
    | none => core s
  | none => core s

def isWordOrWs (c : Char) : Bool := isWordChar c || isWs c

/-- `/(?:dollars?\.?\s*(?:round\s*trip\.?\s*)?)([\w\s]+?)\.?\s*(?:Leaves|Departs)/i`
anchored at the head; returns the `[\w\s]+?` capture. -/
def airlineAt (s : List Char) : Option (List Char) :=
  match dropCI ("dollar".data) s with
  | none => none
  | some t0 =>
    let sBranches := match dropCI ("s".data) t0 with
                     | some t => [t, t0]
                     | none => [t0]
    firstSome (fun t1 =>
      let dotBranches := match t1 with
                         | '.' :: r => [r, t1]
                         | _ => [t1]
      firstSome (fun t2 =>
        firstSome (fun (ws : List Char × List Char) =>
          let t3 := ws.2
          -- optional (?:round\s*trip\.?\s*), tried present-first
          let rtBranches : List (List Char) :=
            (match dropCI ("round".data) t3 with
             | some u0 =>
               match dropCI ("trip".data) (u0.dropWhile isWs) with
               | some u1 =>
                 let u2Branches := match u1 with
                                   | '.' :: r => [r, u1]
                                   | _ => [u1]
                 (u2Branches.map (fun u2 => (wsSplitsDesc u2).map (·.2))).flatten
               | none => []
             | none => []) ++ [t3]
          firstSome (fun t4 =>
            firstSome (fun (grp : List Char × List Char) =>
              let t5 := grp.2
              let dotBranches2 := match t5 with
                                  | '.' :: r => [r, t5]
                                  | _ => [t5]
              firstSome (fun t6 =>
                let t7 := t6.dropWhile isWs
                if (startsWithCI ("leaves".data) t7 || startsWithCI ("departs".data) t7) then
                  some grp.1
                else none) dotBranches2) (lazySplitsAsc isWordOrWs t4)) rtBranches)
          (wsSplitsDesc t2)) dotBranches) sBranches

/-- `(\d+:\d+\s*[AP]M)` anchored at the head (case-insensitive); returns
the captured text. -/
def timeAt (s : List Char) : Option (List Char) :=
  let d1 := s.takeWhile isDigitCh
  if d1.isEmpty then none
  else
    match s.drop d1.length with
    | ':' :: t1 =>
      let d2 := t1.takeWhile isDigitCh
      if d2.isEmpty then none
      else
        let t2 := t1.drop d2.length
        let ws := t2.takeWhile isWs
        match t2.drop ws.length with
        | a :: m :: _ =>
          if (chEqCI a 'a' || chEqCI a 'p') && chEqCI m 'm' then
            some (d1 ++ ':' :: d2 ++ ws ++ [a, m])
          else none
        | _ => none
    | _ => none

/-- `/(?:<kw>)\s+(.+?)\s+at\s+(\d+:\d+\s*[AP]M)/i` anchored at the head,
for the departure (`Leaves|Departs`) and arrival (`Arrives?`) patterns;
`kws` lists the keyword alternatives in the engine's order.  Returns
`(place capture, time capture)`. -/
def depArrAt (kws : List (List Char)) (s : List Char) :
    Option (List Char × List Char) :=
  firstSome (fun kw =>
    match dropCI kw s with
    | none => none
    | some t =>
      let run := (t.takeWhile isWs).length
      if run = 0 then none
      else
        firstSome (fun i =>
          let t1 := t.drop i
          firstSome (fun (grp : List Char × List Char) =>
            let t2 := grp.2
            let ws2 := t2.takeWhile isWs
            if ws2.isEmpty then none
            else
              match dropCI ("at".data) (t2.drop ws2.length) with
              | some t3 =>
                let ws3 := t3.takeWhile isWs
                if ws3.isEmpty then none
                else
                  match timeAt (t3.drop ws3.length) with
                  | some time => some (grp.1, time)
                  | none => none
              | none => none) (lazySplitsAsc (· != '\n') t1))
          ((List.range run).map (fun j => run - j))) kws

/-- `/(?:Total\s+)?duration\s+(\d+)\s*hr?\s*(\d+)?\s*min/i` anchored at
the head; returns `(hours capture, optional minutes capture)`. -/
def durAt (s : List Char) : Option (List Char × Option (List Char)) :=
  let core (t : List Char) : Option (List Char × Option (List Char)) :=
    match dropCI ("duration".data) t with
    | none => none
    | some t1 =>
      let ws1 := t1.takeWhile isWs
      if ws1.isEmpty then none
      else
        let d1 := (t1.drop ws1.length).takeWhile isDigitCh
        if d1.isEmpty then none
        else
          let t2 := ((t1.drop ws1.length).drop d1.length).dropWhile isWs
          match dropCI ("h".data) t2 with
          | none => none
          | some t3 =>
            let rBranches := match dropCI ("r".data) t3 with
                             | some t4 => [t4, t3]
                             | none => [t3]
            firstSome (fun t5 =>
              let t6 := t5.dropWhile isWs
              let ds2 := t6.takeWhile isDigitCh
              let d2Branches : List (Option (List Char) × List Char) :=
                (if ds2.isEmpty then [] else [(some ds2, t6.drop ds2.length)]) ++ [(none, t6)]
              firstSome (fun br =>
                match dropCI ("min".data) (br.2.dropWhile isWs) with
                | some _ => some (d1, br.1)
                | none => none) d2Branches) rBranches
  match dropCI ("total".data) s with
  | some t =>
    let ws := t.takeWhile isWs
    match (if ws.isEmpty then none else core (t.drop ws.length)) with
    | some r => some r
    | none => core s
  | none => core s

/-- `/(Nonstop|\d+\s*stops?)/i` anchored at the head; returns the matched
text (in its original spelling). -/
def stopsAt (s : List Char) : Option (List Char) :=
  if startsWithCI ("nonstop".data) s then some (s.take 7)
  else
    let ds := s.takeWhile isDigitCh
    if ds.isEmpty then none
    else
      let t := s.drop ds.length
      let ws := t.takeWhile isWs
      let t1 := t.drop ws.length
      if startsWithCI ("stops".data) t1 then some (s.take (ds.length + ws.length + 5))
      else if startsWithCI ("stop".data) t1 then some (s.take (ds.length + ws.length + 4))
      else none

/-- `AIRPORT_MAP`, in insertion order (`Object.entries` order). -/
def AIRPORT_MAP : List (List Char × List Char) :=
  [("san francisco international", "SFO"), ("san francisco", "SFO"),
   ("john f. kennedy international", "JFK"), ("john f kennedy international", "JFK"),
   ("jfk", "JFK"), ("kennedy", "JFK"),
   ("los angeles international", "LAX"), ("los angeles", "LAX"),
   ("newark liberty international", "EWR"), ("newark", "EWR"),
   ("o'hare international", "ORD"), ("ohare", "ORD"),
   ("laguardia", "LGA"),
   ("seattle-tacoma international", "SEA"), ("seattle", "SEA"),
   ("logan international", "BOS"), ("boston", "BOS"),
   ("hartsfield-jackson atlanta international", "ATL"),
   ("dallas/fort worth international", "DFW"),
   ("denver international", "DEN"),
   ("miami international", "MIA")].map (fun p => (p.1.data, p.2.data))

/-- `airportCode` (snapshot-optimizer.js). -/
def airportCode (fullName : List Char) : List Char :=
  let lower0 := lowerStr fullName
  let lower1 := scanReplace
    (fun t => if startsWithCI ("airport".data) t then some (7, []) else none)
    lower0.length lower0
  let lower := trimStr lower1
  match AIRPORT_MAP.find? (fun p => containsSub lower p.1) with
  | some p => p.2
  | none => (fullName.take 3).map upperCh

/-- `/\s+/g → ' '` (used by `compressFlightName`'s final cleanup). -/
def collapseWs1 (s : List Char) : List Char :=
  scanReplace (fun t =>
    let ws := t.takeWhile isWs
    if ws.isEmpty then none else some (ws.length, [' '])) s.length s

/-- `compressFlightName` (snapshot-optimizer.js). -/
def compressFlightName (name : List Char) : List Char :=
  let priceMatch := findFirst priceAt name
  let airlineMatch := findFirst airlineAt name
  let depMatch := findFirst (depArrAt [("leaves".data), ("departs".data)]) name
  let arrMatch := findFirst (depArrAt [("arrives".data), ("arrive".data)]) name
  let durMatch := findFirst durAt name
  let stopsMatch := findFirst stopsAt name
  match priceMatch, depMatch, arrMatch with
  | some priceDs, some dep, some arr =>
    let price := '$' :: priceDs
    let airline := match airlineMatch with
                   | some a => trimStr a
                   | none => []
    let depCode := airportCode dep.1
    let depTime := dep.2.filter (fun c => !isWs c)
    let arrCode := airportCode arr.1
    let arrTime := arr.2.filter (fun c => !isWs c)
    let dur := match durMatch with
               | some (d1, d2) => d1 ++ 'h' :: d2.getD []
               | none => []
    -- `.toLowerCase().replace('nonstop', 'nonstop')`: the replace is an
    -- identity on the lowercased text
    let stops := match stopsMatch with
                 | some txt => lowerStr txt
                 | none => []
    trimStr (collapseWs1 (airline ++ ' ' :: depCode ++ ' ' :: depTime ++ '→' :: arrCode ++
      ' ' :: arrTime ++ ' ' :: dur ++ ' ' :: stops ++ ' ' :: price))
  | _, _, _ => name

/-- `/\s{2,}/g → ' '` -/
def collapseWs2 (s : List Char) : List Char :=
  scanReplace (fun t =>
    let ws := t.takeWhile isWs
    if ws.length < 2 then none else some (ws.length, [' '])) s.length s

/-- One `\b<lit>\b` (case-insensitive) global replace with literal
replacement `repl`; `alts` lists the literal alternatives in greedy order
(e.g. `["two stops", "two stop"]` for `two stops?`). -/
def wordBoundFind (alts : List (List Char)) (prev : Option Char) (s : List Char) :
    Option Nat :=
  let boundBefore := match prev with
                     | some c => !isWordChar c
                     | none => true
  if !boundBefore then none
  else
    firstSome (fun alt =>
      if startsWithCI alt s then
        match s.drop alt.length with
        | [] => some alt.length
        | c :: _ => if isWordChar c then none else some alt.length
      else none) alts

def wordBoundReplace (alts : List (List Char)) (repl : List Char) (s : List Char) :
    List Char :=
  scanReplaceB (fun prev t => (wordBoundFind alts prev t).map (fun n => (n, repl)))
    s.length none s

/-- `/From (\d+) US dollars?/gi → '$$$1'` (literal single spaces). -/
def fromDollarsReplace (s : List Char) : List Char :=
  scanReplace (fun t =>
    match dropCI ("from ".data) t with
    | none => none
    | some t1 =>
      let ds := t1.takeWhile isDigitCh
      if ds.isEmpty then none
      else
        match dropCI (" us dollar".data) (t1.drop ds.length) with
        | none => none
        | some t2 =>
          let extra := if startsWithCI ("s".data) t2 then 1 else 0
          some (5 + ds.length + 10 + extra, '$' :: ds)) s.length s

/-- `/(\d+) US dollars?/gi → '$$$1'` -/
def bareDollarsReplace (s : List Char) : List Char :=
  scanReplace (fun t =>
    let ds := t.takeWhile isDigitCh
    if ds.isEmpty then none
    else
      match dropCI (" us dollar".data) (t.drop ds.length) with
      | none => none
      | some t2 =>
        let extra := if startsWithCI ("s".data) t2 then 1 else 0
        some (ds.length + 10 + extra, '$' :: ds)) s.length s

/-- The stop-word replace chain of `semanticCompress` applied to a name. -/
def stopWordChain (nm : List Char) : List Char :=
  let n1 := fromDollarsReplace nm
  let n2 := bareDollarsReplace n1
  let n3 := trimStr (collapseWs2 n2)
  let n4 := wordBoundReplace [("nonstop".data)] ("nonstop".data) n3
  let n5 := wordBoundReplace [("round trip".data)] ("RT".data) n4
  let n6 := wordBoundReplace [("one stop".data)] ("1-stop".data) n5
  wordBoundReplace [("two stops".data), ("two stop".data)] ("2-stop".data) n6

def semanticCompressLine (l : List Char) : List Char :=
  match parseLine l with
  | none => l
  | some p =>
    match p.name with
    | none => l
    | some nm =>
      if nm.isEmpty then l
      else
        let compressed := compressFlightName nm
        if compressed ≠ nm then buildLine p.pfx p.role (some compressed) p.sfx
        else
          let name := stopWordChain nm
          if name ≠ nm then buildLine p.pfx p.role (some name) p.sfx
          else l

def semanticCompress (snapshot : String) : String :=
  (joinLines ((splitLines snapshot.data).map semanticCompressLine)).asString

/-! ## `smartTruncate` (snapshot-optimizer.js § 2d) -/

/-- `countSiblings(lines, startIdx, role)`: same-indent lines of the same
role from `startIdx` until the first shallower line. -/
def countSiblingsGo (indent : Nat) (role : List Char) : List (List Char) → Nat
  | [] => 0
  | l :: rest =>
    let lvl := indentLevel l
    if lvl < indent then 0
    else
      (if lvl = indent then
         (match parseLine l with
          | some p => if p.role = role then 1 else 0
          | none => 0)
       else 0) + countSiblingsGo indent role rest

def countSiblings (lines : List (List Char)) (startIdx : Nat) (role : List Char) : Nat :=
  countSiblingsGo (indentLevel (lines.getD startIdx [])) role (lines.drop startIdx)

/-- `findSiblingGroupEnd(lines, startIdx, role)` (the `role` parameter is
unused in the source): one past the last consecutive line whose indent is
not shallower than the start line's. -/
def findSiblingGroupEnd (lines : List (List Char)) (startIdx : Nat)
    (_role : List Char) : Nat :=
  let indent := indentLevel (lines.getD startIdx [])
  startIdx + ((lines.drop startIdx).takeWhile
    (fun l => decide (indent ≤ indentLevel l))).length

def spacesN (n : Nat) : List Char := List.replicate n ' '

/-- `', '.join` / `','.join` -/
def joinWith (sep : List Char) : List (List Char) → List Char
  | [] => []
  | [x] => x
  | x :: xs => x ++ sep ++ joinWith sep xs

/-- The summary line
`` `${' '.repeat(indent*2)}- text "... and ${remaining} more ${role}s${refNote}"` ``. -/
def truncSummaryLine (indent remaining : Nat) (role : List Char)
    (droppedRefs : List (List Char)) : List Char :=
  let refNote :=
    if droppedRefs.isEmpty then []
    else (" (".data) ++ natDigits droppedRefs.length ++ (" refs hidden: ".data) ++
         joinWith [','] (droppedRefs.take 3) ++ ("...)".data)
  spacesN (indent * 2) ++ ("- text \"... and ".data) ++ natDigits remaining ++
    (" more ".data) ++ role ++ 's' :: refNote ++ ['"']

/-- Main loop of `smartTruncate`; `tracker` is the `listTracker` map
`` `${indent}:${role}` → count `` in insertion order (its `droppedRefs`
field is never read in the source and is omitted). -/
def smartTruncateGo (lines : List (List Char)) (maxItems : Nat) :
    Nat → Nat → List ((Nat × List Char) × Nat) → List (List Char)
  | 0, _, _ => []
  | fuel + 1, i, tracker =>
    if i < lines.length then
      let line := lines.getD i []
      match parseLine line with
      | none => line :: smartTruncateGo lines maxItems fuel (i + 1) tracker
      | some p =>
        if p.role = ("listitem".data) || p.role = ("row".data) || p.role = ("article".data) then
          let indent := indentLevel line
          let key := (indent, p.role)
          let count := (match tracker.find? (fun e => e.1 = key) with
                        | some e => e.2
                        | none => 0) + 1
          let tracker' :=
            if (tracker.find? (fun e => e.1 = key)).isSome then
              tracker.map (fun e => if e.1 = key then (e.1, count) else e)
            else tracker ++ [(key, count)]
          if count ≤ maxItems then
            line :: smartTruncateGo lines maxItems fuel (i + 1) tracker'
          else if count = maxItems + 1 then
            let subtreeEnd := getSubtreeEnd lines i
            let remaining := countSiblings lines i p.role
            let skippedEnd := findSiblingGroupEnd lines i p.role
            let droppedRefs := (((lines.drop i).take (skippedEnd - i)).map collectRefsL).flatten
            truncSummaryLine indent remaining p.role droppedRefs ::
              smartTruncateGo lines maxItems fuel subtreeEnd tracker'
          else
            smartTruncateGo lines maxItems fuel (getSubtreeEnd lines i) tracker'
        else
          line :: smartTruncateGo lines maxItems fuel (i + 1) tracker
    else []

def smartTruncate (snapshot : String) (maxItems : Nat := 5) : String :=
  let lines := splitLines snapshot.data
  (joinLines (smartTruncateGo lines maxItems (lines.length + 1) 0 [])).asString

/-! ## `viewportOnly` / `interactiveOnly` (snapshot-optimizer.js § 2e) -/

def viewportOnlyGo (lines : List (List Char)) (visibleRefs : List (List Char)) :
    Nat → Nat → List (List Char)
  | 0, _ => []
  | fuel + 1, i =>
    if i < lines.length then
      let line := lines.getD i []
      match findRefIn line with
      | some r =>
        if visibleRefs.contains r then
          line :: viewportOnlyGo lines visibleRefs fuel (i + 1)
        else viewportOnlyGo lines visibleRefs fuel (i + 1)
      | none =>
        let indent := indentLevel line
        let below := (lines.drop (i + 1)).takeWhile (fun l => decide (indent < indentLevel l))
        let hasVisibleChild := below.any (fun l =>
          match findRefIn l with
          | some r => visibleRefs.contains r
          | none => false)
        if hasVisibleChild then line :: viewportOnlyGo lines visibleRefs fuel (i + 1)
        else viewportOnlyGo lines visibleRefs fuel (i + 1)
    else []

def viewportOnly (snapshot : String) (visibleRefs : List (List Char)) : String :=
  if visibleRefs.isEmpty then snapshot
  else
    let lines := splitLines snapshot.data
    (joinLines (viewportOnlyGo lines visibleRefs (lines.length + 1) 0)).asString

def interactiveOnlyGo (lines : List (List Char)) : Nat → Nat → List (List Char)
  | 0, _ => []
  | fuel + 1, i =>
    if i < lines.length then
      let line := lines.getD i []
      if (findRefIn line).isSome then
        line :: interactiveOnlyGo lines fuel (i + 1)
      else
        match parseLine line with
        | some _ =>
          let indent := indentLevel line
          let below := (lines.drop (i + 1)).takeWhile (fun l => decide (indent < indentLevel l))
          if below.any (fun l => (findRefIn l).isSome) then
            line :: interactiveOnlyGo lines fuel (i + 1)
          else interactiveOnlyGo lines fuel (i + 1)
        | none => interactiveOnlyGo lines fuel (i + 1)
    else []

def interactiveOnly (snapshot : String) : String :=
  let lines := splitLines snapshot.data
  (joinLines (interactiveOnlyGo lines (lines.length + 1) 0)).asString

/-! ## `optimizeAll` (snapshot-optimizer.js composition) -/

structure OptimizeOptions where
  maxNameLength : Option Nat := none
  maxItems : Option Nat := none
  visibleRefs : Option (List (List Char)) := none
  interactiveOnlyFlag : Bool := false
  deriving Repr

/-- `result.replace(/\n{3,}/g, '\n\n')` -/
def collapseBlankLines (s : List Char) : List Char :=
  scanReplace (fun t =>
    let nl := t.takeWhile (· = '\n')
    if nl.length < 3 then none else some (nl.length, ['\n', '\n'])) s.length s

def optimizeAll (snapshot : String) (options : OptimizeOptions := {}) : String :=
  let r1 := stripChrome snapshot
  let r2 := pruneAttributes r1
  let r3 := removeNoise r2
  let r4 := dedupLinks r3
  let r5 := collapseRedundantChildren r4
  let r6 := semanticCompress r5
  let r7 := truncateLongNames r6 (options.maxNameLength.getD 120)
  let r8 := smartTruncate r7 (options.maxItems.getD 5)
  let r9 := match options.visibleRefs with
            | some vrs => viewportOnly r8 vrs
            | none => r8
  let r10 := if options.interactiveOnlyFlag then interactiveOnly r9 else r9
  (trimStr (collapseBlankLines r10.data)).asString

/-! ## snapshot-differ.js — element parsing -/

/-- The role alternation of `ELEMENT_RE`, in source order (the regex has
no word boundary after the role, so the first alternative that is a
literal prefix wins — e.g. `menuitemcheckbox` parses as `menuitem`). -/
def ELEMENT_ROLES : List (List Char) :=
  ["button", "link", "textbox", "checkbox", "radio", "combobox", "listbox",
   "menuitem", "menuitemcheckbox", "menuitemradio", "option", "searchbox",
   "slider", "spinbutton", "switch", "tab", "treeitem", "heading", "cell",
   "gridcell", "columnheader", "rowheader", "listitem", "article", "region",
   "main", "navigation", "dialog", "document", "group", "list", "table",
   "row", "generic", "text", "strong", "emphasis", "mark"].map String.data

def matchRoleAlt (s : List Char) : Option (List Char × List Char) :=
  (ELEMENT_ROLES.find? (fun r => startsWithLit r s)).map
    (fun r => (r, s.drop r.length))

/-- `("(?:[^"\\]|\\.)*")?` after the opening quote: scan to the closing
quote keeping escape pairs verbatim (`slice(1, -1)` does not unescape);
an unterminated quote (or trailing lone backslash) fails the group. -/
def scanQuoted : List Char → Option (List Char × List Char)
  | [] => none
  | '"' :: rest => some ([], rest)
  | '\\' :: c :: rest =>
    (scanQuoted rest).map (fun r => ('\\' :: c :: r.1, r.2))
  | '\\' :: [] => none
  | c :: rest => (scanQuoted rest).map (fun r => (c :: r.1, r.2))

/-- One element record of the differ (`{role, name, ref, display, indent}`). -/
structure DElem where
  role : List Char
  name : List Char
  ref : Option (List Char)
  display : List Char
  indent : Nat
  deriving Repr, DecidableEq

/-- One line against `ELEMENT_RE`, i.e.
`^(\s*)-\s*(<roles>)\s*("(?:[^"\\]|\\.)*")?\s*(?:\[ref=(e\d+)\])?`
(anchored at the start only; trailing junk is ignored). -/
def parseElement (line : List Char) : Option DElem :=
  let ws := line.takeWhile isWs
  match line.drop ws.length with
  | '-' :: r1 =>
    let r2 := r1.dropWhile isWs
    match matchRoleAlt r2 with
    | none => none
    | some (role, r3) =>
      let r4 := r3.dropWhile isWs
      let nameRes : Option (List Char × List Char) :=
        match r4 with
        | '"' :: inner => scanQuoted inner
        | _ => none
      let (name, r5) := match nameRes with
                        | some (nm, rest) => (nm, rest)
                        | none => ([], r4)
      let r6 := r5.dropWhile isWs
      let refCap := (matchRefAt r6).map (·.1)
      let afterDash := (line.dropWhile isWs)
      let display := match afterDash with
                     | '-' :: t => t.dropWhile isWs
                     | _ => afterDash
      some ⟨role, name, refCap, display, ws.length⟩
  | _ => none

/-- `parseElements` (snapshot-differ.js): `!snapshot` (the empty string)
yields `[]`; otherwise non-matching lines are skipped. -/
def parseElements (snapshot : String) : List DElem :=
  if snapshot.data.isEmpty then []
  else (splitLines snapshot.data).filterMap parseElement

/-! ## snapshot-differ.js — `computeDiff` -/

/-- `` `${el.role}::${el.name}` `` -/
def elemKey (el : DElem) : List Char := el.role ++ ':' :: ':' :: el.name

/-- `prevByRef` lookup: the map is built with `set`, so the last element
with a given ref wins. -/
def lastByRef (es : List DElem) (r : List Char) : Option DElem :=
  es.foldl (fun acc e => if e.ref = some r then some e else acc) none

/-- `prevByRoleName` lookup: built with `if (!has) set`, so the first
element with a given key wins. -/
def firstByKey (es : List DElem) (k : List Char) : Option DElem :=
  es.find? (fun e => elemKey e = k)

/-- The match step for one current element: by ref when possible,
otherwise by `role::name`; also returns the recorded match key. -/
def matchPrev (prev : List DElem) (el : DElem) : Option (DElem × List Char) :=
  let byKey : Option (DElem × List Char) :=
    (firstByKey prev (elemKey el)).map
      (fun pe => (pe, ('r' :: 'n' :: ':' :: elemKey el)))
  match el.ref with
  | some r =>
    match lastByRef prev r with
    | some pe => some (pe, ("ref:".data ++ r))
    | none => byKey
  | none => byKey

/-- `el.ref && prevEl.ref === el.ref && el.name !== prevEl.name` -/
def isChangedPair (el pe : DElem) : Bool :=
  match el.ref with
  | some r => pe.ref = some r && el.name ≠ pe.name
  | none => false

def NOISE_ROLES : List (List Char) :=
  ["generic", "group", "list", "table", "row", "document", "text",
   "strong", "emphasis", "mark"].map String.data

/-- `extractContext(...).title`: the first line whose trimmed text matches
`/^-\s*heading\s+"([^"]*)"/` (the `landmarks` list the source also
collects is never used by `computeDiff`'s rendering). -/
def headingTitle (l : List Char) : Option (List Char) :=
  match trimStartStr l with
  | '-' :: r1 =>
    let r2 := r1.dropWhile isWs
    if startsWithLit ("heading".data) r2 then
      let r3 := r2.drop 7
      let ws := r3.takeWhile isWs
      if ws.isEmpty then none
      else
        match r3.drop ws.length with
        | '"' :: inner =>
          let t := inner.takeWhile (· != '"')
          match inner.drop t.length with
          | '"' :: _ => some t
          | _ => none
        | _ => none
    else none
  | _ => none

def firstTitle : List (List Char) → Option (List Char)
  | [] => none
  | l :: rest =>
    match headingTitle l with
    | some t => some t
    | none => firstTitle rest

/-- `` ` "${name}"` `` when the name is truthy (non-empty), else nothing. -/
def nameStrOf (el : DElem) : List Char :=
  if el.name.isEmpty then [] else ' ' :: '"' :: (el.name ++ ['"'])

/-- `` ` [ref=${el.ref}]` `` when present. -/
def refStrOf (el : DElem) : List Char :=
  match el.ref with
  | some r => (" [ref=".data) ++ r ++ [']']
  | none => []

structure DiffStats where
  added : Nat
  removed : Nat
  changed : Nat
  unchanged : Nat
  total : Nat
  diffRatio : ℚ
  deriving Repr, DecidableEq

structure DiffResult where
  diff : String
  stats : DiffStats
  isLargeDiff : Bool
  isEmpty : Bool
  deriving Repr, DecidableEq

/-- `computeDiff` (snapshot-differ.js).  The source's first loop records
`added` / `changed` / `unchanged` / `matchedPrevKeys` element by element;
no iteration reads what an earlier iteration wrote, so the loop is
rendered as filters over the parsed current list.  `diffRatio` and the
`> 0.7` threshold are computed in exact rational arithmetic; the JS
double computation agrees with it for all inputs whose element counts are
below `2^50`. -/
def computeDiff (prevSnapshot currSnapshot : String) (prevUrl currUrl : String) :
    DiffResult :=
  let prev := parseElements prevSnapshot
  let curr := parseElements currSnapshot
  let added := curr.filter (fun el => (matchPrev prev el).isNone)
  let changedPairs := curr.filterMap (fun el =>
    match matchPrev prev el with
    | some (pe, _) => if isChangedPair el pe then some (el, pe) else none
    | none => none)
  let unchanged := (curr.filter (fun el =>
    match matchPrev prev el with
    | some (pe, _) => !isChangedPair el pe
    | none => false)).length
  let matchedKeys := curr.filterMap (fun el => (matchPrev prev el).map (·.2))
  let removed := prev.filter (fun el =>
    let byRef := match el.ref with
                 | some r => matchedKeys.contains (("ref:".data) ++ r)
                 | none => false
    !(byRef || matchedKeys.contains ('r' :: 'n' :: ':' :: elemKey el)))
  let filteredAdded := added.filter (fun el => !NOISE_ROLES.contains el.role)
  let filteredRemoved := removed.filter (fun el => !NOISE_ROLES.contains el.role)
  let header :=
    (("URL: ".data) ++ currUrl.data) ::
    (if !prevUrl.data.isEmpty && currUrl ≠ prevUrl then
      [("CHANGED from ".data) ++ prevUrl.data] else []) ++
    (match firstTitle (splitLines currSnapshot.data) with
     | some t => [("Title: ".data) ++ t]
     | none => []) ++
    [[]]
  let addLines := filteredAdded.map (fun el =>
    '+' :: ' ' :: el.role ++ nameStrOf el ++ refStrOf el)
  let remLines := filteredRemoved.map (fun el =>
    '-' :: ' ' :: el.role ++ nameStrOf el ++ refStrOf el)
  let chgLines := changedPairs.map (fun pr =>
    '~' :: ' ' :: pr.1.role ++ refStrOf pr.1 ++ (": \"".data) ++ pr.2.name ++
      ("\" → \"".data) ++ pr.1.name ++ ['"'])
  let sumLines := if 0 < unchanged then
    [('=' :: ' ' :: natDigits unchanged ++ (" unchanged elements (not shown)".data))]
    else []
  let diffText := joinLines (header ++ addLines ++ remLines ++ chgLines ++ sumLines)
  let totalElements := curr.length
  let changedElements := filteredAdded.length + filteredRemoved.length + changedPairs.length
  let ratio : ℚ := if 0 < totalElements then (changedElements : ℚ) / totalElements else 1
  -- `diffRatio > 0.7`: written as the equivalent integer comparison
  -- `7 * total < 10 * changed` (for `total > 0`; otherwise `1 > 0.7` is
  -- true outright) so that the flag evaluates by kernel reduction; the
  -- equivalence with the rational comparison is proved in
  -- `isLargeDiff_iff_ratio_gt` below.
  { diff := diffText.asString
    stats := { added := filteredAdded.length, removed := filteredRemoved.length,
               changed := changedPairs.length, unchanged := unchanged,
               total := totalElements, diffRatio := ratio }
    isLargeDiff := if 0 < totalElements then
                     decide (7 * totalElements < 10 * changedElements)
                   else true
    isEmpty := decide (changedElements = 0) }

/-! ## browser.js — `axTreeToSnapshot` (the Outline Builder) -/

/-- One CDP accessibility node, with the fields `axTreeToSnapshot` reads.
`role` and `name` stand for `node.role?.value || ''` / `node.name?.value
|| ''` (the empty string for a missing field).  `backendDOMNodeId` is
tested for JS truthiness in the source, so a missing handle is modelled
as `0`. -/
structure AxNode where
  nodeId : Nat
  parentId : Option Nat
  role : List Char
  name : List Char
  backendDOMNodeId : Nat
  ignored : Bool
  deriving Repr, DecidableEq

/-- `SKIP_ROLES` (browser.js). -/
def SKIP_ROLES : List (List Char) :=
  ["none", "presentation", "InlineTextBox", "LineBreak",
   "StaticText", "RootWebArea", "ignored"].map String.data

/-- `mapRole` (browser.js): a fixed object literal, i.e. exact-key lookup. -/
def roleTable : List (List Char × List Char) :=
  [("button", "button"), ("link", "link"), ("textbox", "textbox"), ("TextField", "textbox"),
   ("checkbox", "checkbox"), ("radio", "radio"), ("combobox", "combobox"),
   ("listbox", "listbox"), ("menuitem", "menuitem"), ("option", "option"),
   ("searchbox", "searchbox"), ("slider", "slider"), ("spinbutton", "spinbutton"),
   ("switch", "switch"), ("tab", "tab"), ("treeitem", "treeitem"),
   ("heading", "heading"), ("cell", "cell"), ("gridcell", "gridcell"),
   ("columnheader", "columnheader"), ("rowheader", "rowheader"),
   ("listitem", "listitem"), ("article", "article"), ("region", "region"),
   ("main", "main"), ("navigation", "navigation"), ("dialog", "dialog"),
   ("document", "document"), ("group", "group"), ("list", "list"),
   ("table", "table"), ("row", "row"), ("generic", "generic"),
   ("text", "text"), ("strong", "strong"), ("emphasis", "emphasis"),
   ("paragraph", "text"), ("Section", "region"), ("WebArea", "document"),
   ("banner", "banner"), ("contentinfo", "contentinfo"),
   ("complementary", "region"), ("form", "group"), ("search", "searchbox"),
   ("img", "img"), ("image", "img"), ("figure", "figure"),
   ("menu", "menu"), ("menubar", "menubar"), ("toolbar", "toolbar"),
   ("tablist", "tablist"), ("tree", "tree"), ("grid", "grid"),
   ("rowgroup", "rowgroup"), ("status", "status"), ("alert", "alert"),
   ("separator", "separator"), ("progressbar", "progressbar")].map
    (fun p => (p.1.data, p.2.data))

def mapRole (cdpRole : List Char) : Option (List Char) :=
  (roleTable.find? (fun p => p.1 = cdpRole)).map (·.2)

/-- `childMap.get(id)`: child node ids in node-list order. -/
def childrenOf (nodes : List AxNode) (pid : Nat) : List Nat :=
  (nodes.filter (fun n => n.parentId = some pid)).map (·.nodeId)

/-- `nodeMap.get(id)`: built with `set` in list order, so the last node
with a given id wins. -/
def nodeGet (nodes : List AxNode) (nid : Nat) : Option AxNode :=
  nodes.foldl (fun acc n => if n.nodeId = nid then some n else acc) none

/-- The mutable state of the traversal (`lines`, `refMap`, `refCounter`). -/
structure BState where
  lines : List (List Char)
  refMap : List (List Char × Nat)
  counter : Nat
  deriving Repr, DecidableEq

/-- `renderNode` (browser.js).  The source recursion has no termination
guarantee on cyclic `parentId` graphs (it would not return); `fuel` bounds
the call depth, and `axTreeToSnapshot` supplies `nodes.length + 1`, which
is enough for every acyclic input since the call depth is bounded by the
tree height. -/
def renderNode (nodes : List AxNode) :
    Nat → Nat → Nat → BState → BState
  | 0, _, _, st => st
  | fuel + 1, nid, depth, st =>
    match nodeGet nodes nid with
    | none => st
    | some node =>
      let role := node.role
      let name := node.name
      let children := childrenOf nodes nid
      if role = ("InlineTextBox".data) || role = ("LineBreak".data) then st
      else if SKIP_ROLES.contains role || role = ("none".data) then
        children.foldl (fun st' cid => renderNode nodes fuel cid depth st') st
      else
        match mapRole role with
        | none =>
          children.foldl (fun st' cid => renderNode nodes fuel cid depth st') st
        | some mappedRole =>
          if node.ignored && children.isEmpty then st
          else
            let assignRef :=
              INTERACTIVE_ROLES.contains mappedRole ||
              (!name.isEmpty && mappedRole ≠ ("generic".data) && mappedRole ≠ ("text".data))
            let counter' := if assignRef then st.counter + 1 else st.counter
            let refId := 'e' :: natDigits counter'
            let refStr := if assignRef then (" [ref=".data) ++ refId ++ [']'] else []
            let refMap' :=
              if assignRef && node.backendDOMNodeId ≠ 0 then
                st.refMap ++ [(refId, node.backendDOMNodeId)]
              else st.refMap
            let nameStr := if name.isEmpty then [] else ' ' :: '"' :: (name ++ ['"'])
            let line := spacesN (2 * depth) ++ '-' :: ' ' :: mappedRole ++ nameStr ++ refStr
            let st1 : BState := ⟨st.lines ++ [line], refMap', counter'⟩
            children.foldl (fun st' cid => renderNode nodes fuel cid (depth + 1) st') st1

/-- `axTreeToSnapshot` (browser.js): returns the outline text and the
`refMap`. -/
def axTreeToSnapshot (nodes : List AxNode) : String × List (List Char × Nat) :=
  match nodes with
  | [] => ("", [])
  | first :: _ =>
    let root := (nodes.find? (fun n => n.parentId = none)).getD first
    let st := (childrenOf nodes root.nodeId).foldl
      (fun st cid => renderNode nodes (nodes.length + 1) cid 0 st)
      ⟨[], [], 0⟩
    ((joinLines st.lines).asString, st.refMap)

/-! ## browser.js — ref resolution guards of the reference-addressed actions

`clickRef`, `fillRef`, `hover` and `selectOption` all begin with
`` const backendNodeId = this._refMap.get(ref); if (!backendNodeId) throw … ``.
Only this guard is pure (the rest of each method performs CDP I/O); it is
embedded here as a function from the current ref map and the requested ref
to either the resolved handle or the thrown error message. -/

def refMapGet (m : List (List Char × Nat)) (r : List Char) : Option Nat :=
  m.foldl (fun acc e => if e.1 = r then some e.2 else acc) none

/-- `[...this._refMap.keys()]`: insertion order, first occurrence of each
key (a JS `Map` keeps the original position on re-insertion). -/
def mapKeys (m : List (List Char × Nat)) : List (List Char) :=
  (m.map (·.1)).foldl (fun acc k => if acc.contains k then acc else acc ++ [k]) []

/-- JS truthiness of the looked-up handle: absent or `0` fails. -/
def refMapMiss (m : List (List Char × Nat)) (r : List Char) : Bool :=
  match refMapGet m r with
  | none => true
  | some n => n = 0

/-- `clickRef`'s guard:
`` `Unknown ref: ${ref}. Available refs: ${[...keys].slice(0, 10).join(', ')}...` `` -/
def clickRefGuard (m : List (List Char × Nat)) (r : List Char) : Except String Nat :=
  if refMapMiss m r then
    .error ((("Unknown ref: ".data) ++ r ++ (". Available refs: ".data) ++
      joinWith (", ".data) ((mapKeys m).take 10) ++ ("...".data)).asString)
  else .ok ((refMapGet m r).getD 0)

/-- `fillRef`'s guard: `` `Unknown ref: ${ref}` `` (no candidate list). -/
def fillRefGuard (m : List (List Char × Nat)) (r : List Char) : Except String Nat :=
  if refMapMiss m r then .error ((("Unknown ref: ".data) ++ r).asString)
  else .ok ((refMapGet m r).getD 0)

/-- `hover`'s guard: `` `Unknown ref: ${ref}` ``. -/
def hoverGuard (m : List (List Char × Nat)) (r : List Char) : Except String Nat :=
  if refMapMiss m r then .error ((("Unknown ref: ".data) ++ r).asString)
  else .ok ((refMapGet m r).getD 0)

/-- `selectOption`'s guard: `` `Unknown ref: ${ref}` ``. -/
def selectOptionGuard (m : List (List Char × Nat)) (r : List Char) : Except String Nat :=
  if refMapMiss m r then .error ((("Unknown ref: ".data) ++ r).asString)
  else .ok ((refMapGet m r).getD 0)

/-! ## Concrete inputs used by the claim theorems -/

/-- A node list whose button child has no backend-DOM handle
(`backendDOMNodeId` falsy). -/
def c1nodes : List AxNode :=
  [⟨1, none, ("WebArea".data), [], 5, false⟩,
   ⟨2, some 1, ("button".data), ("Go".data), 0, false⟩]

/-- A banner subtree holding a non-interactive ref (a heading). -/
def c2chrome : String := "- banner\n  - heading \"Hi\" [ref=e1]"

/-- An article with two same-named links carrying different refs. -/
def c2dup : String := "- article\n  - link \"x\" [ref=e1]\n  - link \"x\" [ref=e2]"

/-- A long-named link with a non-interactive ref-bearing child. -/
def c2collapse : String :=
  "- link \"Amazing Deals on Wonderful Products Today Here\" [ref=e1]\n  - generic [ref=e2]"

/-- 118 `a`s, a space, 10 `b`s: 129 characters, truncated by
`truncateLongNames` to 121 characters, which a second pass truncates
again. -/
def longName : String := (List.replicate 118 'a' ++ ' ' :: List.replicate 10 'b').asString

def idemX : String := "- heading \"" ++ longName ++ "\""

/-- An outline whose two elements share `ref=e1` with different names. -/
def dupRefOutline : String := "- button \"a\" [ref=e1]\n- button \"b\" [ref=e1]"

/-- The flight-itinerary link of spec §8 S7. -/
def flightName : String :=
  "From 320 US dollars round trip. United. Leaves San Francisco International at 7:15 AM. Arrives John F. Kennedy International at 3:40 PM. Total duration 5 hr 25 min. Nonstop"

def flightLine : String := "- link \"" ++ flightName ++ "\" [ref=e7]"

def flightLineExpected : String :=
  "- link \"United SFO 7:15AM→JFK 3:40PM 5h25 nonstop $320\" [ref=e7]"

/-- `` `  - listitem "Item<k>" [ref=e<k>]` `` plus a text child. -/
def li20item (k : Nat) : List (List Char) :=
  [("  - listitem \"Item".data) ++ natDigits k ++ ("\" [ref=e".data) ++ natDigits k ++ ("]".data),
   ("    - text \"Desc".data) ++ natDigits k ++ ("\"".data)]

/-- One parent with 20 sibling listitems (each with a subtree child) and
no other listitem anywhere. -/
def li20 : String :=
  (joinLines (("- list".data) :: ((List.range 20).map (fun k => li20item (k + 1))).flatten)).asString

/-- The expected `smartTruncate` output for `li20` with `maxItems = 5`. -/
def li20Expected : String :=
  (joinLines (("- list".data) :: ((List.range 5).map (fun k => li20item (k + 1))).flatten ++
    [("  - text \"... and 15 more listitems (15 refs hidden: e6,e7,e8...)\"".data)])).asString

/-- An outline *containing* 20 sibling listitems under one parent at the
same indent — but preceded by another parent with 3 listitems at that
indent. -/
def li3and20 : String :=
  let bItem := fun (k : Nat) =>
    ("  - listitem \"B".data) ++ natDigits (k + 1) ++ ("\" [ref=e".data) ++
      natDigits (k + 1) ++ ("]".data)
  let allLines := ("- list".data) :: ("  - listitem \"A1\"".data) ::
    ("  - listitem \"A2\"".data) :: ("  - listitem \"A3\"".data) ::
    ("- list".data) :: (List.range 20).map bItem
  (joinLines allLines).asString

/-- Decidable form of the claim's summary-line regex
`^\s*- text "\.\.\. and 15 more listitems( \(\d+ refs hidden: e\d+(,e\d+){0,2}\.\.\.\))?"$`. -/
def summary15Match (l : List Char) : Bool :=
  let r := l.dropWhile isWs
  let lit := "- text \"... and 15 more listitems".data
  if startsWithLit lit r then
    let t := r.drop lit.length
    if t = ['"'] then true
    else if startsWithLit (" (".data) t then
      let t1 := t.drop 2
      let ds := t1.takeWhile isDigitCh
      if ds.isEmpty then false
      else
        let t2 := t1.drop ds.length
        if startsWithLit (" refs hidden: e".data) t2 then
          let t3 := t2.drop 15
          let d1 := t3.takeWhile isDigitCh
          if d1.isEmpty then false
          else
            let afterRefs :=
              let u0 := t3.drop d1.length
              let step (u : List Char) : List Char :=
                match u with
                | ',' :: 'e' :: v =>
                  let dv := v.takeWhile isDigitCh
                  if dv.isEmpty then u else v.drop dv.length
                | _ => u
              step (step u0)
            afterRefs = ("...)\"".data)
        else false
    else false
  else false

/-! ## C1 (amended): hypotheses and invariant for the outline builder -/

/-- Hypotheses on the node list for the reference-closure theorem:
every node has a (truthy) backend-DOM handle and its name contains no
`[` or newline (accessibility-tree names; a bracketed name could spell a
fake ref tag into the outline text). -/
def CleanNodes (nodes : List AxNode) : Prop :=
  ∀ n ∈ nodes, n.backendDOMNodeId ≠ 0 ∧ ∀ c ∈ n.name, c ≠ '[' ∧ c ≠ '\n'

/-- The traversal invariant: all emitted lines are newline-free and every
ref printed on an emitted line is a key of the accumulated ref map. -/
def BInv (st : BState) : Prop :=
  (∀ l ∈ st.lines, ∀ c ∈ l, c ≠ '\n') ∧
  (∀ l ∈ st.lines, ∀ r ∈ collectRefsL l, r ∈ st.refMap.map Prod.fst)

/-! ## C2 (amended): a well-formed line grammar for outlines

`mkWfLine` builds exactly the lines `axTreeToSnapshot` emits
(indent, `- role`, optional quoted name, trailing `[ref=eN]` tags);
`wfCondB` adds decidable side conditions under which the four reducers
named below can be shown to keep every reference. -/

/-- The full text of one `[ref=eN]` tag. -/
def matchText (n : Nat) : List Char :=
  '[' :: 'r' :: 'e' :: 'f' :: '=' :: 'e' :: (natDigits n ++ [']'])

/-- A ref tag as it appears in a line: one space, then the tag. -/
def refAttr (n : Nat) : List Char := ' ' :: matchText n

/-- The ref suffix of a line carrying the handles `refs`. -/
def wfSuffix : List Nat → List Char
  | [] => []
  | n :: rest => refAttr n ++ wfSuffix rest

/-- The same suffix after `extractRefs` has replaced the tags with
indexed placeholders `__REF_k__`, numbering from `i`. -/
def phSuffix : List Nat → Nat → List Char
  | [], _ => []
  | _ :: rest, i => ' ' :: (refPlaceholder i ++ phSuffix rest (i + 1))

/-- An abstract well-formed outline line: indent width, role, optional
quoted name, and the numbers of its ref tags. -/
structure WfLine where
  ind : Nat
  wrole : List Char
  wname : Option (List Char)
  wrefs : List Nat
  deriving Repr

def isLowerAlpha (c : Char) : Bool := 'a' ≤ c && c ≤ 'z'

/-- Everything of the line before the ref tags. -/
def wfHead (w : WfLine) : List Char :=
  spacesN w.ind ++ '-' :: ' ' ::
    (w.wrole ++ (match w.wname with
                 | some nm => ' ' :: '"' :: (nm ++ ['"'])
                 | none => []))

def mkWfLine (w : WfLine) : List Char := wfHead w ++ wfSuffix w.wrefs

/-- `m` matches at no position of `s`. -/
def noMatchAnywhere (m : List Char → Option (Nat × List Char)) : List Char → Bool
  | [] => (m []).isNone
  | c :: rest => (m (c :: rest)).isNone && noMatchAnywhere m rest

/-- Decidable well-formedness: a non-empty lower-case-alphabetic role; a
name containing no quote, bracket, newline or underscore; the line is not
one of `removeNoise`'s noise patterns and not a `- /url:` line; and the
quoted-URL rewrite of `pruneAttributes` matches nowhere on the
ref-extracted line (names are not quoted URLs). -/
def wfCondB (w : WfLine) : Bool :=
  !w.wrole.isEmpty && w.wrole.all isLowerAlpha &&
  (match w.wname with
   | some nm => nm.all (fun c => c != '"' && c != '[' && c != '\n' && c != '_')
   | none => true) &&
  !isPlaceholderLine (mkWfLine w) && !isEmptyTextLine (mkWfLine w) &&
  !isWsTextLine (mkWfLine w) && !isUrlLine (mkWfLine w) &&
  noMatchAnywhere urlShortenMatcher (extractRefs (mkWfLine w)).1

def mkWfOutline (ws : List WfLine) : String :=
  (joinLines (ws.map mkWfLine)).asString

/-- A concrete two-line well-formed outline for the C2 witness. -/
def wfW1 : WfLine := ⟨0, "list".data, none, []⟩

def wfW2 : WfLine := ⟨2, "link".data, some ("Home page".data), [1]⟩

/-! ## Claim theorems — concrete evaluations and counterexamples -/

/-- C1 counterexample: for `c1nodes` the emitted outline shows `e1`, but
the handle map returned alongside it is empty — the button has no
backend-DOM handle, so its ref never enters the map.  This refutes the
claim that every ref printed in the snapshot is a key of the refMap. -/
theorem axTreeToSnapshot_ref_without_handle :
    collectRefsStr (axTreeToSnapshot c1nodes).1 = ["e1"] ∧
    (axTreeToSnapshot c1nodes).2 = [] := by
  constructor <;> rfl

/-- C2 counterexample: three of the claimed reducers silently drop a
reference.  `stripChrome` drops `e1` (a heading inside a banner: only
interactive-role refs are rescued); `dedupLinks` drops `e2` (a duplicate
link name whose second occurrence carries a different ref);
`collapseRedundantChildren` drops `e2` (a ref-bearing child of a
non-interactive role under a long-named link). -/
theorem reducers_drop_refs_counterexample :
    (collectRefsStr c2chrome = ["e1"] ∧ collectRefsStr (stripChrome c2chrome) = []) ∧
    (collectRefsStr c2dup = ["e1", "e2"] ∧ collectRefsStr (dedupLinks c2dup) = ["e1"]) ∧
    (collectRefsStr c2collapse = ["e1", "e2"] ∧
      collectRefsStr (collapseRedundantChildren c2collapse) = ["e1"]) := by
  exact ⟨⟨rfl, rfl⟩, ⟨rfl, rfl⟩, rfl, rfl⟩

/-- C3: the composed pipeline is *not* idempotent.  `truncateLongNames`
cuts the 129-character name of `idemX` to 121 characters (118 `a`s plus
`...`), which still exceeds the 120 limit, so a second `optimizeAll` run
truncates again and produces a different string. -/
theorem optimizeAll_not_idempotent :
    optimizeAll idemX = "- heading \"" ++ ((List.replicate 118 'a').asString ++ "...\"") ∧
    optimizeAll (optimizeAll idemX) ≠ optimizeAll idemX := by
  constructor
  · rfl
  · decide

/-- C4 counterexample: diffing two empty outlines parses zero current
elements; the source then forces `diffRatio = 1`, so `isLargeDiff` is
`true`, while the claim's formula `(added+removed+changed)/total` is
`0/0`, which does not exceed `0.7`. -/
theorem isLargeDiff_zero_total_counterexample :
    (computeDiff "" "" "u" "u").isLargeDiff = true ∧
    (computeDiff "" "" "u" "u").stats.added = 0 ∧
    (computeDiff "" "" "u" "u").stats.removed = 0 ∧
    (computeDiff "" "" "u" "u").stats.changed = 0 ∧
    (computeDiff "" "" "u" "u").stats.total = 0 ∧
    ¬ ((7 : ℚ) / 10 < ((0 : ℚ) + 0 + 0) / (0 : ℚ)) := by
  refine ⟨rfl, rfl, rfl, rfl, rfl, ?_⟩
  norm_num

/-- C5 counterexample: an outline in which two elements share `ref=e1`
with different names.  `prevByRef` is built with `set`, so the later
element wins; the earlier current element then ref-matches the later one
and is reported *changed*, so `diff(x, x)` is not empty. -/
theorem computeDiff_self_dup_ref_counterexample :
    (computeDiff dupRefOutline dupRefOutline "u" "u").isEmpty = false ∧
    (computeDiff dupRefOutline dupRefOutline "u" "u").stats.changed = 1 := by
  constructor <;> rfl

/-- C6 (code bug): the source's noise patterns require a colon after the
role (`- text:` — Playwright snapshot syntax), but this repository's
outline grammar is `- text "<name>"`.  A whitespace-only quoted text line
of the grammar form is therefore *kept*, contradicting the claim (and the
source's own comments, which say empty / whitespace-only text nodes are
removed); the colon forms, which the builder never emits, are dropped. -/
theorem removeNoise_keeps_quoted_blank_text :
    removeNoise "- text \" \"" = "- text \" \"" ∧
    removeNoise "- text: \" \"" = "" ∧
    removeNoise "- text:" = "" ∧
    removeNoise "- /placeholder: hint" = "" := by
  exact ⟨rfl, rfl, rfl, rfl⟩

/-- C7 counterexample: with `e1` in the handle map, `fillRef`'s unknown-ref
error is exactly `Unknown ref: e99` — it does not name any currently-known
reference (no `e1`, no `Available refs`), unlike `clickRef`'s. -/
theorem fillRef_error_lacks_candidates :
    fillRefGuard [(("e1".data), 5)] ("e99".data) = .error "Unknown ref: e99" ∧
    containsSub ("Unknown ref: e99".data) ("e1".data) = false ∧
    clickRefGuard [(("e1".data), 5)] ("e99".data) =
      .error "Unknown ref: e99. Available refs: e1..." := by
  exact ⟨rfl, rfl, rfl⟩

/-- C8: the flight-itinerary link of spec §8 S7 compresses to exactly
`United SFO 7:15AM→JFK 3:40PM 5h25 nonstop $320`, with the line's prefix,
role and suffix (including `[ref=e7]`) unchanged. -/
theorem semanticCompress_flight_itinerary :
    semanticCompress flightLine = flightLineExpected := by
  rfl

/-- C9 counterexample: `li3and20` contains 20 sibling listitems under one
parent at one indent, but `smartTruncate`'s tracker is keyed globally by
`(indent, role)`, so the 3 preceding listitems of another parent count
against the same budget: no line of the output matches the claimed
`... and 15 more listitems` summary, and the group's third item `B3`
(which the claim says is among the kept first five) is gone. -/
theorem smartTruncate_global_tracker_counterexample :
    ((splitLines (smartTruncate li3and20 5).data).filter summary15Match) = [] ∧
    containsSub (smartTruncate li3and20 5).data ("\"B3\"".data) = false ∧
    containsSub li3and20.data ("\"B3\"".data) = true := by
  exact ⟨rfl, rfl, rfl⟩

/-- C9 (amended): on an outline whose *only* listitems at that indent are
the 20 siblings under the one parent, `smartTruncate` with `maxItems = 5`
keeps the first 5 items with their subtrees, emits exactly one summary
line matching the claimed regex, and drops the remaining 15 items and
their descendants. -/
theorem smartTruncate_twenty_listitems :
    smartTruncate li20 5 = li20Expected ∧
    ((splitLines (smartTruncate li20 5).data).filter summary15Match).length = 1 ∧
    ((List.range 15).all (fun j =>
      !containsSub (smartTruncate li20 5).data (("Item".data) ++ natDigits (j + 6)))) = true := by
  refine ⟨rfl, rfl, ?_⟩
  decide

/-- C10 counterexample: when the current outline parses to zero elements
but the previous outline had a removable element, `diffRatio` is still
forced to `1` (so `isLargeDiff` holds) but `isEmpty` is *false* — the
claim's `isEmpty = true` does not hold for every zero-element current
outline. -/
theorem computeDiff_empty_current_not_isEmpty :
    (computeDiff "- button \"x\" [ref=e1]" "" "u" "u").stats.diffRatio = 1 ∧
    (computeDiff "- button \"x\" [ref=e1]" "" "u" "u").isLargeDiff = true ∧
    (computeDiff "- button \"x\" [ref=e1]" "" "u" "u").isEmpty = false := by
  exact ⟨rfl, rfl, rfl⟩

/-! ## Unfolding lemmas for `computeDiff` (definitional) -/

theorem computeDiff_total (p c pu cu : String) :
    (computeDiff p c pu cu).stats.total = (parseElements c).length := rfl

theorem computeDiff_added_def (p c pu cu : String) :
    (computeDiff p c pu cu).stats.added =
      (((parseElements c).filter (fun el => (matchPrev (parseElements p) el).isNone)).filter
        (fun el => !NOISE_ROLES.contains el.role)).length := rfl

theorem computeDiff_changed_def (p c pu cu : String) :
    (computeDiff p c pu cu).stats.changed =
      ((parseElements c).filterMap (fun el =>
        match matchPrev (parseElements p) el with
        | some (pe, _) => if isChangedPair el pe then some (el, pe) else none
        | none => none)).length := rfl

theorem computeDiff_removed_def (p c pu cu : String) :
    (computeDiff p c pu cu).stats.removed =
      (((parseElements p).filter (fun el =>
        let byRef := match el.ref with
                     | some r => (((parseElements c).filterMap (fun el' =>
                         (matchPrev (parseElements p) el').map (·.2))).contains
                           (("ref:".data) ++ r))
                     | none => false
        !(byRef || (((parseElements c).filterMap (fun el' =>
            (matchPrev (parseElements p) el').map (·.2))).contains
              ('r' :: 'n' :: ':' :: elemKey el))))).filter
        (fun el => !NOISE_ROLES.contains el.role)).length := rfl

theorem computeDiff_isLargeDiff_def (p c pu cu : String) :
    (computeDiff p c pu cu).isLargeDiff =
      (if 0 < (computeDiff p c pu cu).stats.total then
        decide (7 * (computeDiff p c pu cu).stats.total <
          10 * ((computeDiff p c pu cu).stats.added +
                (computeDiff p c pu cu).stats.removed +
                (computeDiff p c pu cu).stats.changed))
      else true) := rfl

theorem computeDiff_isEmpty_def (p c pu cu : String) :
    (computeDiff p c pu cu).isEmpty =
      decide ((computeDiff p c pu cu).stats.added +
              (computeDiff p c pu cu).stats.removed +
              (computeDiff p c pu cu).stats.changed = 0) := rfl

theorem computeDiff_diffRatio_def (p c pu cu : String) :
    (computeDiff p c pu cu).stats.diffRatio =
      (if 0 < (computeDiff p c pu cu).stats.total then
        (((computeDiff p c pu cu).stats.added +
          (computeDiff p c pu cu).stats.removed +
          (computeDiff p c pu cu).stats.changed : Nat) : ℚ) /
          ((computeDiff p c pu cu).stats.total : ℚ)
      else 1) := rfl

/-- C4 (amended): when the current outline parses to at least one element,
`isLargeDiff` is `true` exactly when
`(added + removed + changed) / total > 0.7` (in exact rational
arithmetic, with `added`/`removed` the noise-filtered counts and `total`
the current element count); the `total = 0` case is excluded, where the
code forces the ratio to `1`. -/
theorem isLargeDiff_iff_ratio_gt (p c pu cu : String)
    (h : 0 < (computeDiff p c pu cu).stats.total) :
    ((computeDiff p c pu cu).isLargeDiff = true ↔
      (7 : ℚ) / 10 <
        (((computeDiff p c pu cu).stats.added : ℚ) +
         ((computeDiff p c pu cu).stats.removed : ℚ) +
         ((computeDiff p c pu cu).stats.changed : ℚ)) /
        ((computeDiff p c pu cu).stats.total : ℚ)) := by
  rw [computeDiff_isLargeDiff_def, if_pos h]
  rw [decide_eq_true_iff]
  have ht : (0 : ℚ) < ((computeDiff p c pu cu).stats.total : ℚ) := by
    exact_mod_cast h
  rw [div_lt_div_iff₀ (by norm_num) ht]
  constructor
  · intro hlt
    have hq : (7 : ℚ) * ((computeDiff p c pu cu).stats.total : ℚ) <
        10 * (((computeDiff p c pu cu).stats.added : ℚ) +
              ((computeDiff p c pu cu).stats.removed : ℚ) +
              ((computeDiff p c pu cu).stats.changed : ℚ)) := by
      exact_mod_cast hlt
    linarith
  · intro hlt
    have hq : (7 : ℚ) * ((computeDiff p c pu cu).stats.total : ℚ) <
        10 * (((computeDiff p c pu cu).stats.added : ℚ) +
              ((computeDiff p c pu cu).stats.removed : ℚ) +
              ((computeDiff p c pu cu).stats.changed : ℚ)) := by
      linarith
    exact_mod_cast hq

/-- C4 witness: a current outline with one element, all of it changed. -/
theorem isLargeDiff_iff_ratio_gt_witness :
    0 < (computeDiff "" "- button \"x\"" "u" "u").stats.total ∧
    ((computeDiff "" "- button \"x\"" "u" "u").isLargeDiff = true ↔
      (7 : ℚ) / 10 <
        (((computeDiff "" "- button \"x\"" "u" "u").stats.added : ℚ) +
         ((computeDiff "" "- button \"x\"" "u" "u").stats.removed : ℚ) +
         ((computeDiff "" "- button \"x\"" "u" "u").stats.changed : ℚ)) /
        ((computeDiff "" "- button \"x\"" "u" "u").stats.total : ℚ)) :=
  ⟨by decide, isLargeDiff_iff_ratio_gt "" "- button \"x\"" "u" "u" (by decide)⟩

/-- C10 (amended): whenever the current outline parses to zero elements,
`computeDiff` forces `diffRatio = 1` and `isLargeDiff = true`; `isEmpty`
is additionally `true` exactly when the previous outline contributes no
non-noise elements (e.g. both outlines empty), so the two flags are not
mutually exclusive — but `isEmpty` does not hold for *every* zero-element
current outline. -/
theorem computeDiff_empty_current_ratio (p c pu cu : String)
    (h : parseElements c = []) :
    (computeDiff p c pu cu).stats.diffRatio = 1 ∧
    (computeDiff p c pu cu).isLargeDiff = true ∧
    ((parseElements p).filter (fun el => !NOISE_ROLES.contains el.role) = [] →
      (computeDiff p c pu cu).isEmpty = true) := by
  have htot : (computeDiff p c pu cu).stats.total = 0 := by
    rw [computeDiff_total, h]; rfl
  refine ⟨?_, ?_, ?_⟩
  · rw [computeDiff_diffRatio_def, htot]
    norm_num
  · rw [computeDiff_isLargeDiff_def, htot]
    norm_num
  · intro hp
    have hadd : (computeDiff p c pu cu).stats.added = 0 := by
      rw [computeDiff_added_def, h]
      rfl
    have hchg : (computeDiff p c pu cu).stats.changed = 0 := by
      rw [computeDiff_changed_def, h]
      rfl
    have hnn : ∀ el ∈ parseElements p, ¬(!NOISE_ROLES.contains el.role) = true := by
      intro el hel hcon
      have : el ∈ (parseElements p).filter (fun el => !NOISE_ROLES.contains el.role) :=
        List.mem_filter.mpr ⟨hel, hcon⟩
      rw [hp] at this
      exact absurd this (List.not_mem_nil el)
    have hrem : (computeDiff p c pu cu).stats.removed = 0 := by
      rw [computeDiff_removed_def]
      rw [List.length_eq_zero]
      rw [List.filter_eq_nil_iff]
      intro el hel
      exact hnn el (List.mem_of_mem_filter hel)
    rw [computeDiff_isEmpty_def, hadd, hchg, hrem]
    rfl

/-- C10 witness: two empty outlines. -/
theorem computeDiff_empty_current_ratio_witness :
    parseElements "" = [] ∧
    ((computeDiff "" "" "u" "u").stats.diffRatio = 1 ∧
     (computeDiff "" "" "u" "u").isLargeDiff = true ∧
     ((parseElements "").filter (fun el => !NOISE_ROLES.contains el.role) = [] →
       (computeDiff "" "" "u" "u").isEmpty = true)) :=
  ⟨rfl, computeDiff_empty_current_ratio "" "" "u" "u" rfl⟩

/-! ## C5 (amended): self-diff is empty when refs are not duplicated -/

/-- Helper: once no later element carries ref `r`, the `prevByRef` fold
keeps its accumulator. -/
theorem lastByRef_foldl_const (r : List Char) (tl : List DElem)
    (h : ∀ x ∈ tl, x.ref ≠ some r) (acc : Option DElem) :
    tl.foldl (fun acc e => if e.ref = some r then some e else acc) acc = acc := by
  induction tl generalizing acc with
  | nil => rfl
  | cons e tl ih =>
    have he : e.ref ≠ some r := h e (List.mem_cons_self e tl)
    rw [List.foldl_cons, if_neg he]
    exact ih (fun x hx => h x (List.mem_cons_of_mem e hx)) acc

/-- Helper: with pairwise-distinct refs, `prevByRef` resolves an element's
own ref to that element. -/
theorem lastByRef_eq_of_mem_nodup (es : List DElem)
    (hnd : (es.filterMap DElem.ref).Nodup) (el : DElem) (hel : el ∈ es)
    (r : List Char) (hr : el.ref = some r) :
    lastByRef es r = some el := by
  induction es with
  | nil => exact absurd hel (List.not_mem_nil el)
  | cons e tl ih =>
    have hnd_tl : (tl.filterMap DElem.ref).Nodup := by
      cases hre : e.ref with
      | none => rw [List.filterMap_cons, hre] at hnd; exact hnd
      | some re => rw [List.filterMap_cons, hre] at hnd; exact hnd.of_cons
    rcases List.mem_cons.mp hel with rfl | hmem
    · -- el is the head: no tail element may carry r
      have hnone : ∀ x ∈ tl, x.ref ≠ some r := by
        intro x hx hxr
        rw [List.filterMap_cons, hr] at hnd
        have : r ∈ tl.filterMap DElem.ref :=
          List.mem_filterMap.mpr ⟨x, hx, hxr⟩
        exact (List.nodup_cons.mp hnd).1 this
      unfold lastByRef
      rw [List.foldl_cons, if_pos hr]
      exact lastByRef_foldl_const r tl hnone (some el)
    · -- el is in the tail: the head cannot carry r
      have hne : e.ref ≠ some r := by
        intro hre
        rw [List.filterMap_cons, hre] at hnd
        have : r ∈ tl.filterMap DElem.ref :=
          List.mem_filterMap.mpr ⟨el, hmem, hr⟩
        exact (List.nodup_cons.mp hnd).1 this
      unfold lastByRef
      rw [List.foldl_cons, if_neg hne]
      exact ih hnd_tl hmem

/-- Helper: every parsed element matches *something* when diffing an
outline against itself, and the matched pair is never `changed` when refs
are not duplicated. -/
theorem matchPrev_self (es : List DElem) (hnd : (es.filterMap DElem.ref).Nodup)
    (el : DElem) (hel : el ∈ es) :
    ∃ pe k, matchPrev es el = some (pe, k) ∧ isChangedPair el pe = false ∧
      ((∀ r, el.ref = some r → k = ("ref:".data) ++ r) ∧
       (el.ref = none → k = 'r' :: 'n' :: ':' :: elemKey el)) := by
  cases hr : el.ref with
  | some r =>
    refine ⟨el, ("ref:".data) ++ r, ?_, ?_, ?_⟩
    · simp only [matchPrev, hr, lastByRef_eq_of_mem_nodup es hnd el hel r hr]
    · simp [isChangedPair, hr]
    · refine ⟨fun r' hr' => ?_, fun hn => Option.noConfusion hn⟩
      rw [Option.some.inj hr']
  | none =>
    have hsome : (List.find? (fun e => elemKey e = elemKey el) es).isSome := by
      rw [List.find?_isSome]
      exact ⟨el, hel, by simp⟩
    rcases Option.isSome_iff_exists.mp hsome with ⟨pe, hpe⟩
    refine ⟨pe, 'r' :: 'n' :: ':' :: elemKey el, ?_, ?_, ?_⟩
    · simp only [matchPrev, hr, firstByKey, hpe, Option.map_some']
    · simp [isChangedPair, hr]
    · exact ⟨fun r' hr' => Option.noConfusion hr', fun _ => rfl⟩

/-- C5 (amended): diffing an outline against itself yields an empty diff
with zero added/removed/changed counts, *provided* no reference is carried
by two parsed elements (which is how the builder numbers a real outline);
`diffRatio` is then `0` whenever the outline parses to at least one
element, and `1` when it parses to none (the code forces the ratio to `1`
at `total = 0`).  With duplicated refs the ref-match can pair elements
with different names and report them changed. -/
theorem computeDiff_self_empty (x u1 u2 : String)
    (hnd : ((parseElements x).filterMap DElem.ref).Nodup) :
    (computeDiff x x u1 u2).isEmpty = true ∧
    (computeDiff x x u1 u2).stats.added = 0 ∧
    (computeDiff x x u1 u2).stats.removed = 0 ∧
    (computeDiff x x u1 u2).stats.changed = 0 ∧
    (parseElements x ≠ [] → (computeDiff x x u1 u2).stats.diffRatio = 0) ∧
    (parseElements x = [] → (computeDiff x x u1 u2).stats.diffRatio = 1) := by
  have hadd : (computeDiff x x u1 u2).stats.added = 0 := by
    have hinner : (parseElements x).filter
        (fun el => (matchPrev (parseElements x) el).isNone) = [] := by
      rw [List.filter_eq_nil_iff]
      intro el hel
      rcases matchPrev_self (parseElements x) hnd el hel with ⟨pe, k, hm, -, -⟩
      simp [hm]
    rw [computeDiff_added_def, hinner]
    rfl
  have hchg : (computeDiff x x u1 u2).stats.changed = 0 := by
    have hinner : (parseElements x).filterMap (fun el =>
        match matchPrev (parseElements x) el with
        | some (pe, _) => if isChangedPair el pe then some (el, pe) else none
        | none => none) = [] := by
      rw [List.filterMap_eq_nil_iff]
      intro el hel
      rcases matchPrev_self (parseElements x) hnd el hel with ⟨pe, k, hm, hc, -⟩
      rw [hm]
      simp [hc]
    rw [computeDiff_changed_def, hinner]
    rfl
  have hrem : (computeDiff x x u1 u2).stats.removed = 0 := by
    have hinner : (parseElements x).filter (fun el =>
        let byRef := match el.ref with
                     | some r => (((parseElements x).filterMap (fun el' =>
                         (matchPrev (parseElements x) el').map (·.2))).contains
                           (("ref:".data) ++ r))
                     | none => false
        !(byRef || (((parseElements x).filterMap (fun el' =>
            (matchPrev (parseElements x) el').map (·.2))).contains
              ('r' :: 'n' :: ':' :: elemKey el)))) = [] := by
      rw [List.filter_eq_nil_iff]
      intro el hel
      rcases matchPrev_self (parseElements x) hnd el hel with ⟨pe, k, hm, -, hk1, hk2⟩
      have hmem : k ∈ (parseElements x).filterMap
          (fun el' => (matchPrev (parseElements x) el').map (·.2)) :=
        List.mem_filterMap.mpr ⟨el, hel, by rw [hm]; rfl⟩
      cases hr : el.ref with
      | some r =>
        have hmem' : (("ref:".data) ++ r) ∈ (parseElements x).filterMap
            (fun el' => (matchPrev (parseElements x) el').map (·.2)) := by
          rw [← hk1 r hr]; exact hmem
        have hb : (((parseElements x).filterMap
            (fun el' => (matchPrev (parseElements x) el').map (·.2))).contains
              (("ref:".data) ++ r)) = true :=
          List.elem_iff.mpr hmem'
        intro hcon
        simp only [hr] at hcon
        rw [hb] at hcon
        simp at hcon
      | none =>
        have hmem' : ('r' :: 'n' :: ':' :: elemKey el) ∈ (parseElements x).filterMap
            (fun el' => (matchPrev (parseElements x) el').map (·.2)) := by
          rw [← hk2 hr]; exact hmem
        have hb : (((parseElements x).filterMap
            (fun el' => (matchPrev (parseElements x) el').map (·.2))).contains
              ('r' :: 'n' :: ':' :: elemKey el)) = true :=
          List.elem_iff.mpr hmem'
        intro hcon
        simp only [hr] at hcon
        rw [hb] at hcon
        simp at hcon
    rw [computeDiff_removed_def, hinner]
    rfl
  refine ⟨?_, hadd, hrem, hchg, ?_, ?_⟩
  · rw [computeDiff_isEmpty_def, hadd, hrem, hchg]
    rfl
  · intro hne
    have htot : 0 < (computeDiff x x u1 u2).stats.total := by
      rw [computeDiff_total]
      exact List.length_pos.2 hne
    rw [computeDiff_diffRatio_def, if_pos htot, hadd, hrem, hchg]
    norm_num
  · intro he
    have htot : (computeDiff x x u1 u2).stats.total = 0 := by
      rw [computeDiff_total, he]
      rfl
    rw [computeDiff_diffRatio_def, htot]
    norm_num

/-- C5 witness: a concrete three-element outline with distinct refs. -/
theorem computeDiff_self_empty_witness :
    ((parseElements "- heading \"T\" [ref=e1]\n- link \"go\" [ref=e2]\n- text \"hi\"").filterMap
      DElem.ref).Nodup ∧
    (computeDiff "- heading \"T\" [ref=e1]\n- link \"go\" [ref=e2]\n- text \"hi\""
      "- heading \"T\" [ref=e1]\n- link \"go\" [ref=e2]\n- text \"hi\"" "u" "u").isEmpty = true ∧
    (computeDiff "- heading \"T\" [ref=e1]\n- link \"go\" [ref=e2]\n- text \"hi\""
      "- heading \"T\" [ref=e1]\n- link \"go\" [ref=e2]\n- text \"hi\""
      "u" "u").stats.diffRatio = 0 :=
  ⟨by decide,
   (computeDiff_self_empty "- heading \"T\" [ref=e1]\n- link \"go\" [ref=e2]\n- text \"hi\""
     "u" "u" (by decide)).1,
   (computeDiff_self_empty "- heading \"T\" [ref=e1]\n- link \"go\" [ref=e2]\n- text \"hi\""
     "u" "u" (by decide)).2.2.2.2.1 (by decide)⟩

/-! ## String lemmas for the reference-closure proofs (C1, C2) -/

theorem digitChar_isDigit (m : Nat) (h : m < 10) :
    isDigitCh (Char.ofNat (48 + m)) = true := by
  interval_cases m <;> decide

theorem isDigitCh_ne_newline {c : Char} (h : isDigitCh c = true) : c ≠ '\n' := by
  intro hc
  rw [hc] at h
  exact absurd h (by decide)

theorem isDigitCh_ne_bracket {c : Char} (h : isDigitCh c = true) : c ≠ '[' := by
  intro hc
  rw [hc] at h
  exact absurd h (by decide)

theorem isDigitCh_ne_underscore {c : Char} (h : isDigitCh c = true) : c ≠ '_' := by
  intro hc
  rw [hc] at h
  exact absurd h (by decide)

/-- `natDigitsAux` produces a non-empty all-digit string whenever the fuel
exceeds the number. -/
theorem natDigitsAux_spec : ∀ fuel n, n < fuel →
    natDigitsAux fuel n ≠ [] ∧ ∀ c ∈ natDigitsAux fuel n, isDigitCh c = true := by
  intro fuel
  induction fuel with
  | zero => intro n h; exact absurd h (Nat.not_lt_zero n)
  | succ f ih =>
    intro n h
    by_cases h10 : n < 10
    · constructor
      · simp [natDigitsAux, h10]
      · intro c hc
        simp only [natDigitsAux, if_pos h10, List.mem_singleton] at hc
        rw [hc]
        exact digitChar_isDigit n h10
    · have hn : 0 < n := by omega
      have hdiv : n / 10 < n := Nat.div_lt_self hn (by norm_num)
      have hdf : n / 10 < f := by omega
      rcases ih (n / 10) hdf with ⟨hne, hall⟩
      constructor
      · simp [natDigitsAux, h10]
      · intro c hc
        simp only [natDigitsAux, if_neg h10, List.mem_append, List.mem_singleton] at hc
        rcases hc with hc | hc
        · exact hall c hc
        · rw [hc]
          exact digitChar_isDigit (n % 10) (Nat.mod_lt _ (by norm_num))

theorem natDigits_ne_nil (n : Nat) : natDigits n ≠ [] :=
  (natDigitsAux_spec (n + 1) n (Nat.lt_succ_self n)).1

theorem natDigits_all_digits (n : Nat) : ∀ c ∈ natDigits n, isDigitCh c = true :=
  (natDigitsAux_spec (n + 1) n (Nat.lt_succ_self n)).2

theorem takeWhile_append_all {α : Type} {p : α → Bool} {xs : List α} (ys : List α)
    (h : ∀ x ∈ xs, p x = true) :
    (xs ++ ys).takeWhile p = xs ++ ys.takeWhile p := by
  induction xs with
  | nil => rfl
  | cons x xs ih =>
    have hx : p x = true := h x (List.mem_cons_self x xs)
    rw [List.cons_append, List.takeWhile_cons_of_pos hx,
      ih (fun a ha => h a (List.mem_cons_of_mem x ha)), List.cons_append]

theorem takeWhileLenLe {α : Type} (p : α → Bool) (l : List α) :
    (l.takeWhile p).length ≤ l.length :=
  (List.takeWhile_sublist p).length_le

theorem startsWithLit_length {p s : List Char} (h : startsWithLit p s = true) :
    p.length ≤ s.length := by
  induction p generalizing s with
  | nil => simp
  | cons q ps ih =>
    cases s with
    | nil => exact absurd h (by simp [startsWithLit])
    | cons c cs =>
      simp only [startsWithLit, Bool.and_eq_true] at h
      simpa using ih h.2

theorem startsWithLit_append_newline (p : List Char) (hp : ('\n' : Char) ∉ p)
    (a b : List Char) :
    startsWithLit p (a ++ '\n' :: b) = startsWithLit p a := by
  induction p generalizing a with
  | nil => rfl
  | cons q ps ih =>
    cases a with
    | nil =>
      have hq : q ≠ '\n' := fun hc => hp (hc ▸ List.mem_cons_self q ps)
      simp [startsWithLit, hq]
    | cons c cs =>
      simp only [List.cons_append, startsWithLit]
      congr 1
      exact ih (fun hc => hp (List.mem_cons_of_mem q hc)) cs

theorem takeWhile_append_newline (p : Char → Bool) (hp : p '\n' = false)
    (a b : List Char) :
    (a ++ '\n' :: b).takeWhile p = a.takeWhile p := by
  induction a with
  | nil => simp [List.takeWhile_cons, hp]
  | cons c cs ih =>
    simp only [List.cons_append, List.takeWhile_cons]
    cases hpc : p c with
    | false => rfl
    | true => rw [ih]

/-- `REF_PATTERN` cannot match across a newline: anchoring at the head,
the text before a newline decides the match. -/
theorem matchRefAt_append_newline (a b : List Char) :
    matchRefAt (a ++ '\n' :: b) = matchRefAt a := by
  unfold matchRefAt
  rw [startsWithLit_append_newline refLit (by decide) a b]
  cases hs : startsWithLit refLit a with
  | false => simp
  | true =>
    have hlen : 6 ≤ a.length := startsWithLit_length hs
    have hdrop : (a ++ '\n' :: b).drop 6 = a.drop 6 ++ '\n' :: b := by
      rw [List.drop_append_of_le_length hlen]
    simp only [if_pos rfl, hdrop]
    rw [takeWhile_append_newline isDigitCh (by decide) (a.drop 6) b]
    cases hds : (a.drop 6).takeWhile isDigitCh with
    | nil => simp
    | cons d ds =>
      have hlen2 : (d :: ds).length ≤ (a.drop 6).length := by
        rw [← hds]
        exact takeWhileLenLe isDigitCh (a.drop 6)
      have hdrop2 : (a.drop 6 ++ '\n' :: b).drop (d :: ds).length =
          (a.drop 6).drop (d :: ds).length ++ '\n' :: b := by
        rw [List.drop_append_of_le_length hlen2]
      simp only [hdrop2]
      rw [startsWithLit_append_newline [']'] (by decide)]

theorem matchRefAt_cons_ne {c : Char} (h : c ≠ '[') (rest : List Char) :
    matchRefAt (c :: rest) = none := by
  unfold matchRefAt
  have hd : decide (('[' : Char) = c) = false := decide_eq_false (fun hh => h hh.symm)
  simp [refLit, startsWithLit, hd]

theorem collectRefsL_cons_none {c : Char} {rest : List Char}
    (h : matchRefAt (c :: rest) = none) :
    collectRefsL (c :: rest) = collectRefsL rest := by
  simp only [collectRefsL, h]

theorem collectRefsL_cons_some {c : Char} {rest : List Char} {r : List Char} {n : Nat}
    (h : matchRefAt (c :: rest) = some (r, n)) :
    collectRefsL (c :: rest) = r :: collectRefsL rest := by
  simp only [collectRefsL, h]

theorem collectRefsL_nil_of_no_bracket {s : List Char} (h : ∀ c ∈ s, c ≠ '[') :
    collectRefsL s = [] := by
  induction s with
  | nil => rfl
  | cons c rest ih =>
    rw [collectRefsL_cons_none (matchRefAt_cons_ne (h c (List.mem_cons_self c rest)) rest)]
    exact ih (fun x hx => h x (List.mem_cons_of_mem c hx))

theorem collectRefsL_append_left_of_no_bracket {A : List Char} (s : List Char)
    (h : ∀ c ∈ A, c ≠ '[') :
    collectRefsL (A ++ s) = collectRefsL s := by
  induction A with
  | nil => rfl
  | cons c rest ih =>
    rw [List.cons_append]
    rw [collectRefsL_cons_none (matchRefAt_cons_ne (h c (List.mem_cons_self c rest)) _)]
    exact ih (fun x hx => h x (List.mem_cons_of_mem c hx))

theorem collectRefsL_append_newline (a b : List Char) :
    collectRefsL (a ++ '\n' :: b) = collectRefsL a ++ collectRefsL b := by
  induction a with
  | nil =>
    simp only [List.nil_append, List.nil_append]
    rw [collectRefsL_cons_none (matchRefAt_cons_ne (by decide) b)]
    rfl
  | cons c a' ih =>
    rw [List.cons_append]
    have hm : matchRefAt (c :: (a' ++ '\n' :: b)) = matchRefAt (c :: a') := by
      have := matchRefAt_append_newline (c :: a') b
      simpa using this
    cases hr : matchRefAt (c :: a') with
    | none =>
      rw [collectRefsL_cons_none (hm.trans hr), ih,
        collectRefsL_cons_none hr]
    | some v =>
      obtain ⟨r, n⟩ := v
      rw [collectRefsL_cons_some (hm.trans hr), ih, collectRefsL_cons_some hr]
      rfl

/-- Over newline-free lines, the refs of the joined text are the
concatenation of each line's refs (the source's `collectRefs`). -/
theorem collectRefsL_join (lines : List (List Char))
    (h : ∀ l ∈ lines, ∀ c ∈ l, c ≠ '\n') :
    collectRefsL (joinLines lines) = (lines.map collectRefsL).flatten := by
  induction lines with
  | nil => rfl
  | cons l ls ih =>
    cases ls with
    | nil => simp [joinLines]
    | cons l' ls' =>
      have hjoin : joinLines (l :: l' :: ls') = l ++ '\n' :: joinLines (l' :: ls') := rfl
      rw [hjoin]
      have hnl : ∀ c ∈ l, c ≠ '\n' := h l (List.mem_cons_self l _)
      have : collectRefsL (l ++ '\n' :: joinLines (l' :: ls')) =
          collectRefsL l ++ collectRefsL (joinLines (l' :: ls')) :=
        collectRefsL_append_newline l _
      rw [this, ih (fun x hx c hc => h x (List.mem_cons_of_mem l hx) c hc)]
      rfl

/-- Refs of a line `A ++ " [ref=e<ds>]"` with a bracket-free `A`. -/
theorem matchRefAt_refstr (ds : List Char) (tail : List Char)
    (hne : ds ≠ []) (hd : ∀ c ∈ ds, isDigitCh c = true) :
    matchRefAt ('[' :: 'r' :: 'e' :: 'f' :: '=' :: 'e' :: (ds ++ ']' :: tail)) =
      some (('e' :: ds), 6 + ds.length + 1) := by
  unfold matchRefAt
  have hs : startsWithLit refLit
      ('[' :: 'r' :: 'e' :: 'f' :: '=' :: 'e' :: (ds ++ ']' :: tail)) = true := by
    simp [refLit, startsWithLit]
  rw [hs]
  have hdrop : ('[' :: 'r' :: 'e' :: 'f' :: '=' :: 'e' :: (ds ++ ']' :: tail)).drop 6 =
      ds ++ ']' :: tail := rfl
  simp only [if_pos rfl, hdrop]
  have htw : (ds ++ ']' :: tail).takeWhile isDigitCh = ds := by
    rw [takeWhile_append_all (']' :: tail) hd]
    have : isDigitCh ']' = false := by decide
    simp [List.takeWhile_cons, this]
  rw [htw, if_neg hne]
  have hdrop2 : (ds ++ ']' :: tail).drop ds.length = ']' :: tail := List.drop_left ds _
  rw [hdrop2]
  simp [startsWithLit]

theorem collectRefsL_line (A ds : List Char) (hA : ∀ c ∈ A, c ≠ '[')
    (hne : ds ≠ []) (hd : ∀ c ∈ ds, isDigitCh c = true) :
    collectRefsL (A ++ ' ' :: '[' :: 'r' :: 'e' :: 'f' :: '=' :: 'e' :: (ds ++ [']'])) =
      [('e' :: ds)] := by
  rw [collectRefsL_append_left_of_no_bracket _ hA]
  rw [collectRefsL_cons_none (matchRefAt_cons_ne (by decide) _)]
  rw [collectRefsL_cons_some (matchRefAt_refstr ds [] hne hd)]
  have hrest : collectRefsL ('r' :: 'e' :: 'f' :: '=' :: 'e' :: (ds ++ [']'])) = [] := by
    apply collectRefsL_nil_of_no_bracket
    intro c hc
    simp only [List.mem_cons, List.mem_append, List.mem_singleton] at hc
    rcases hc with rfl | rfl | rfl | rfl | rfl | hc | rfl | hc
    · decide
    · decide
    · decide
    · decide
    · decide
    · exact isDigitCh_ne_bracket (hd c hc)
    · decide
    · exact absurd hc (List.not_mem_nil c)
  rw [hrest]

/-! ## C1 (amended): reference closure of the outline builder -/

/-- Every mapped role in the fixed role table is bracket- and newline-free. -/
theorem roleTable_clean :
    ∀ p ∈ roleTable, ∀ c ∈ p.2, c ≠ '[' ∧ c ≠ '\n' := by
  decide

theorem nodeGet_foldl_mem (nid : Nat) :
    ∀ (l : List AxNode) (acc : Option AxNode) (n : AxNode),
      l.foldl (fun acc m => if m.nodeId = nid then some m else acc) acc = some n →
      acc = some n ∨ n ∈ l := by
  intro l
  induction l with
  | nil => intro acc n h; exact Or.inl h
  | cons x xs ih =>
    intro acc n h
    rw [List.foldl_cons] at h
    rcases ih _ n h with hacc | hmem
    · by_cases hid : x.nodeId = nid
      · rw [if_pos hid] at hacc
        exact Or.inr (Option.some.inj hacc ▸ List.mem_cons_self x xs)
      · rw [if_neg hid] at hacc
        exact Or.inl hacc
    · exact Or.inr (List.mem_cons_of_mem x hmem)

theorem nodeGet_mem {nodes : List AxNode} {nid : Nat} {n : AxNode}
    (h : nodeGet nodes nid = some n) : n ∈ nodes := by
  rcases nodeGet_foldl_mem nid nodes none n h with hacc | hmem
  · exact absurd hacc (by simp)
  · exact hmem

theorem binv_foldl {nodes : List AxNode} {fuel depth : Nat}
    (hstep : ∀ nid st, BInv st → BInv (renderNode nodes fuel nid depth st)) :
    ∀ (cids : List Nat) (st : BState), BInv st →
      BInv (cids.foldl (fun st' cid => renderNode nodes fuel cid depth st') st) := by
  intro cids
  induction cids with
  | nil => intro st h; exact h
  | cons c cs ih =>
    intro st h
    rw [List.foldl_cons]
    exact ih _ (hstep c st h)

theorem refstr_no_newline (ds : List Char) (hd : ∀ c ∈ ds, isDigitCh c = true) :
    ∀ c ∈ (([' ', '[', 'r', 'e', 'f', '='] ++ 'e' :: ds) ++ [']']), c ≠ '\n' := by
  intro c hc
  rcases List.mem_append.mp hc with hc | hc
  · rcases List.mem_append.mp hc with hc | hc
    · fin_cases hc <;> decide
    · rcases List.mem_cons.mp hc with rfl | hc
      · decide
      · exact isDigitCh_ne_newline (hd c hc)
  · rw [List.mem_singleton] at hc
    subst hc
    decide

theorem collectRefsL_line' (A ds : List Char) (hA : ∀ c ∈ A, c ≠ '[')
    (hne : ds ≠ []) (hd : ∀ c ∈ ds, isDigitCh c = true) :
    collectRefsL (A ++ (([' ', '[', 'r', 'e', 'f', '='] ++ 'e' :: ds) ++ [']'])) =
      [('e' :: ds)] := by
  have hshape : A ++ (([' ', '[', 'r', 'e', 'f', '='] ++ 'e' :: ds) ++ [']']) =
      A ++ ' ' :: '[' :: 'r' :: 'e' :: 'f' :: '=' :: 'e' :: (ds ++ [']']) := by
    simp
  rw [hshape]
  exact collectRefsL_line A ds hA hne hd

theorem renderNode_inv (nodes : List AxNode) (hcn : CleanNodes nodes) :
    ∀ (fuel nid depth : Nat) (st : BState), BInv st →
      BInv (renderNode nodes fuel nid depth st) := by
  intro fuel
  induction fuel with
  | zero => intro nid depth st h; exact h
  | succ f ih =>
    intro nid depth st h
    rw [renderNode]
    cases hg : nodeGet nodes nid with
    | none => exact h
    | some node =>
      simp only []
      have hmem := nodeGet_mem hg
      rcases hcn node hmem with ⟨hid, hname⟩
      by_cases h1 : (node.role = ("InlineTextBox".data) || node.role = ("LineBreak".data)) = true
      · rw [if_pos h1]; exact h
      · rw [if_neg h1]
        by_cases h2 : (SKIP_ROLES.contains node.role || node.role = ("none".data)) = true
        · rw [if_pos h2]
          exact binv_foldl (fun nid' st' h' => ih nid' depth st' h') _ st h
        · rw [if_neg h2]
          cases hmr : mapRole node.role with
          | none =>
            simp only []
            exact binv_foldl (fun nid' st' h' => ih nid' depth st' h') _ st h
          | some mr =>
            simp only []
            have hclean : ∀ c ∈ mr, c ≠ '[' ∧ c ≠ '\n' := by
              intro c hc
              unfold mapRole at hmr
              cases hf : roleTable.find? (fun p => p.1 = node.role) with
              | none => rw [hf] at hmr; exact absurd hmr (by simp)
              | some pr =>
                rw [hf] at hmr
                simp only [Option.map_some'] at hmr
                have hpr : pr ∈ roleTable := List.mem_of_find?_eq_some hf
                have heq : pr.2 = mr := Option.some.inj hmr
                exact roleTable_clean pr hpr c (heq ▸ hc)
            by_cases h3 : (node.ignored && (childrenOf nodes nid).isEmpty) = true
            · rw [if_pos h3]; exact h
            · rw [if_neg h3]
              -- the emit branch; name the shared line head
              have hA : ∀ c ∈ spacesN (2 * depth) ++ '-' :: ' ' :: mr ++
                  (if node.name.isEmpty = true then []
                   else ' ' :: '"' :: (node.name ++ ['"'])),
                  c ≠ '[' ∧ c ≠ '\n' := by
                intro c hc
                simp only [List.mem_append, List.mem_cons, spacesN] at hc
                rcases hc with (hc | rfl | rfl | hc) | hc
                · rw [List.eq_of_mem_replicate hc]
                  exact ⟨by decide, by decide⟩
                · exact ⟨by decide, by decide⟩
                · exact ⟨by decide, by decide⟩
                · exact hclean c hc
                · by_cases hne : node.name.isEmpty = true
                  · rw [if_pos hne] at hc
                    exact absurd hc (List.not_mem_nil c)
                  · rw [if_neg hne] at hc
                    simp at hc
                    rcases hc with rfl | rfl | hc | rfl
                    · exact ⟨by decide, by decide⟩
                    · exact ⟨by decide, by decide⟩
                    · exact hname c hc
                    · exact ⟨by decide, by decide⟩
              by_cases h4 : (INTERACTIVE_ROLES.contains mr ||
                  (!node.name.isEmpty && mr ≠ ("generic".data) && mr ≠ ("text".data))) = true
              · simp only [h4, if_true]
                apply binv_foldl (fun nid' st' h' => ih nid' (depth + 1) st' h')
                have hds1 := natDigits_ne_nil (st.counter + 1)
                have hds2 := natDigits_all_digits (st.counter + 1)
                constructor
                · intro l hl c hc
                  rcases List.mem_append.mp hl with hl | hl
                  · exact h.1 l hl c hc
                  · rw [List.mem_singleton] at hl
                    subst hl
                    rcases List.mem_append.mp hc with hc | hc
                    · exact (hA c hc).2
                    · exact refstr_no_newline (natDigits (st.counter + 1)) hds2 c hc
                · intro l hl r hr
                  have hkeys : (if (true && decide (node.backendDOMNodeId ≠ 0)) = true then
                      st.refMap ++ [('e' :: natDigits (st.counter + 1), node.backendDOMNodeId)]
                      else st.refMap) =
                      st.refMap ++ [('e' :: natDigits (st.counter + 1), node.backendDOMNodeId)] := by
                    rw [if_pos]
                    simp [hid]
                  rw [hkeys]
                  rcases List.mem_append.mp hl with hl | hl
                  · have := h.2 l hl r hr
                    rw [List.map_append]
                    exact List.mem_append_left _ this
                  · rw [List.mem_singleton] at hl
                    subst hl
                    rw [collectRefsL_line' _ _ (fun c hc => (hA c hc).1) hds1 hds2] at hr
                    rw [List.mem_singleton] at hr
                    subst hr
                    rw [List.map_append]
                    apply List.mem_append_right
                    simp
              · have h4f : (INTERACTIVE_ROLES.contains mr ||
                    (!node.name.isEmpty && mr ≠ ("generic".data) && mr ≠ ("text".data))) = false := by
                  exact Bool.not_eq_true _ ▸ (Bool.eq_false_iff.mpr (fun hc => h4 hc))
                simp only [h4f, Bool.false_and, Bool.false_eq_true, if_false]
                apply binv_foldl (fun nid' st' h' => ih nid' (depth + 1) st' h')
                constructor
                · intro l hl c hc
                  rcases List.mem_append.mp hl with hl | hl
                  · exact h.1 l hl c hc
                  · rw [List.mem_singleton] at hl
                    subst hl
                    rw [List.append_nil] at hc
                    exact (hA c hc).2
                · intro l hl r hr
                  rcases List.mem_append.mp hl with hl | hl
                  · exact h.2 l hl r hr
                  · rw [List.mem_singleton] at hl
                    subst hl
                    rw [List.append_nil] at hr
                    rw [collectRefsL_nil_of_no_bracket (fun c hc => (hA c hc).1)] at hr
                    exact absurd hr (List.not_mem_nil r)

/-- C1 (amended): when every accessibility node carries a (truthy)
backend-DOM handle and node names contain no `[` or newline, every
`e<n>` ref printed in the outline emitted by `axTreeToSnapshot` is a key
of the handle map returned alongside it.  Without the handle hypothesis
the claim is false: a ref is printed for a handle-less node but never
enters the map. -/
theorem axTreeToSnapshot_refs_in_refMap (nodes : List AxNode)
    (hcn : CleanNodes nodes) :
    ∀ r ∈ collectRefsStr (axTreeToSnapshot nodes).1,
      r ∈ (axTreeToSnapshot nodes).2.map (fun e => e.1.asString) := by
  intro r hr
  cases nodes with
  | nil => exact absurd hr (by simp [axTreeToSnapshot, collectRefsStr, collectRefsL])
  | cons first rest =>
    simp only [axTreeToSnapshot] at hr ⊢
    set root := ((first :: rest).find? (fun n => n.parentId = none)).getD first with hroot
    set st := (childrenOf (first :: rest) root.nodeId).foldl
      (fun st cid => renderNode (first :: rest) ((first :: rest).length + 1) cid 0 st)
      ⟨[], [], 0⟩ with hst
    have hinv : BInv st := by
      rw [hst]
      apply binv_foldl
        (fun nid' st' h' => renderNode_inv (first :: rest) hcn _ nid' 0 st' h')
      constructor
      · intro l hl; exact absurd hl (List.not_mem_nil l)
      · intro l hl; exact absurd hl (List.not_mem_nil l)
    simp only [collectRefsStr] at hr
    have hdata : ((joinLines st.lines).asString).data = joinLines st.lines := rfl
    rw [hdata] at hr
    rw [collectRefsL_join st.lines hinv.1] at hr
    rcases List.mem_map.mp hr with ⟨r0, hr0, hr0s⟩
    rcases List.mem_flatten.mp hr0 with ⟨lr, hlr, hrin⟩
    rcases List.mem_map.mp hlr with ⟨l, hl, hleq⟩
    have := hinv.2 l hl r0 (hleq ▸ hrin)
    rcases List.mem_map.mp this with ⟨e, he, hek⟩
    exact hr0s ▸ List.mem_map.mpr ⟨e, he, by rw [hek]⟩

/-- C1 witness: a two-node tree whose button has a backend handle. -/
theorem axTreeToSnapshot_refs_in_refMap_witness :
    CleanNodes [⟨1, none, ("WebArea".data), [], 5, false⟩,
      ⟨2, some 1, ("button".data), ("Go".data), 7, false⟩] ∧
    "e1" ∈ ((axTreeToSnapshot [⟨1, none, ("WebArea".data), [], 5, false⟩,
      ⟨2, some 1, ("button".data), ("Go".data), 7, false⟩]).2.map
        (fun e => e.1.asString)) :=
  ⟨by
    intro n hn
    simp only [List.mem_cons, List.mem_singleton] at hn
    rcases hn with rfl | rfl | h
    · exact ⟨by decide, by intro c hc; exact absurd hc (List.not_mem_nil c)⟩
    · refine ⟨by decide, ?_⟩
      intro c hc
      simp only [List.mem_cons] at hc
      rcases hc with rfl | rfl | h
      · exact ⟨by decide, by decide⟩
      · exact ⟨by decide, by decide⟩
      · exact absurd h (List.not_mem_nil c)
    · exact absurd h (List.not_mem_nil n),
   axTreeToSnapshot_refs_in_refMap
     [⟨1, none, ("WebArea".data), [], 5, false⟩,
      ⟨2, some 1, ("button".data), ("Go".data), 7, false⟩]
     (by
       intro n hn
       simp only [List.mem_cons, List.mem_singleton] at hn
       rcases hn with rfl | rfl | h
       · exact ⟨by decide, by intro c hc; exact absurd hc (List.not_mem_nil c)⟩
       · refine ⟨by decide, ?_⟩
         intro c hc
         simp only [List.mem_cons] at hc
         rcases hc with rfl | rfl | h
         · exact ⟨by decide, by decide⟩
         · exact ⟨by decide, by decide⟩
         · exact absurd h (List.not_mem_nil c)
       · exact absurd h (List.not_mem_nil n))
     "e1" (by decide)⟩

/-- C7 (amended): every reference-addressed action fails with an
UnknownRef error when the ref is absent from the current handle map, but
only `clickRef`'s message names candidate references — it lists the first
ten map keys (in insertion order); `fillRef`, `hover` and `selectOption`
report only `Unknown ref: <ref>` with no candidates. -/
theorem unknownRef_guard_messages (m : List (List Char × Nat)) (r : List Char)
    (h : refMapGet m r = none) :
    clickRefGuard m r = .error ((("Unknown ref: ".data) ++ r ++
        (". Available refs: ".data) ++ joinWith (", ".data) ((mapKeys m).take 10) ++
        ("...".data)).asString) ∧
    fillRefGuard m r = .error ((("Unknown ref: ".data) ++ r).asString) ∧
    hoverGuard m r = .error ((("Unknown ref: ".data) ++ r).asString) ∧
    selectOptionGuard m r = .error ((("Unknown ref: ".data) ++ r).asString) ∧
    ((mapKeys m).take 10).length ≤ 10 ∧
    ∀ k ∈ (mapKeys m).take 10, k ∈ mapKeys m := by
  have hmiss : refMapMiss m r = true := by
    unfold refMapMiss
    rw [h]
  refine ⟨?_, ?_, ?_, ?_, ?_, ?_⟩
  · unfold clickRefGuard
    rw [hmiss]
    rfl
  · unfold fillRefGuard
    rw [hmiss]
    rfl
  · unfold hoverGuard
    rw [hmiss]
    rfl
  · unfold selectOptionGuard
    rw [hmiss]
    rfl
  · simp [List.length_take_le]
  · intro k hk
    exact List.mem_of_mem_take hk

/-- C7 witness: a two-entry map and the absent ref `e99`. -/
theorem unknownRef_guard_messages_witness :
    refMapGet [(("e1".data), 5), (("e2".data), 9)] ("e99".data) = none ∧
    clickRefGuard [(("e1".data), 5), (("e2".data), 9)] ("e99".data) =
      .error "Unknown ref: e99. Available refs: e1, e2..." ∧
    fillRefGuard [(("e1".data), 5), (("e2".data), 9)] ("e99".data) =
      .error "Unknown ref: e99" :=
  ⟨rfl,
   ((unknownRef_guard_messages [(("e1".data), 5), (("e2".data), 9)] ("e99".data) rfl).1),
   ((unknownRef_guard_messages [(("e1".data), 5), (("e2".data), 9)] ("e99".data) rfl).2.1)⟩

/-! ## C2 (amended): generic string and scan lemmas -/

theorem startsWithLit_append_of_true {p s : List Char} (t : List Char)
    (h : startsWithLit p s = true) : startsWithLit p (s ++ t) = true := by
  induction p generalizing s with
  | nil => rfl
  | cons q ps ih =>
    cases s with
    | nil => exact absurd h (by simp [startsWithLit])
    | cons c cs =>
      simp only [startsWithLit, Bool.and_eq_true] at h
      simp only [List.cons_append, startsWithLit, Bool.and_eq_true]
      exact ⟨h.1, ih h.2⟩

theorem startsWithLit_append_self (p t : List Char) :
    startsWithLit p (p ++ t) = true := by
  induction p with
  | nil => rfl
  | cons c cs ih => simp [startsWithLit, List.cons_append, ih]

theorem startsWithLit_singleton {x : Char} {s : List Char}
    (h : startsWithLit [x] s = true) : ∃ v, s = x :: v := by
  cases s with
  | nil => exact absurd h (by simp [startsWithLit])
  | cons c cs =>
    simp only [startsWithLit, Bool.and_eq_true, decide_eq_true_eq] at h
    exact ⟨cs, by rw [h.1]⟩

theorem dropWhile_append_all {α : Type} {p : α → Bool} {xs : List α} (ys : List α)
    (h : ∀ x ∈ xs, p x = true) :
    (xs ++ ys).dropWhile p = ys.dropWhile p := by
  induction xs with
  | nil => rfl
  | cons x xs ih =>
    have hx := h x (List.mem_cons_self x xs)
    rw [List.cons_append, List.dropWhile_cons_of_pos hx]
    exact ih (fun a ha => h a (List.mem_cons_of_mem x ha))

theorem drop_length_takeWhile {α : Type} (p : α → Bool) (l : List α) :
    l.drop (l.takeWhile p).length = l.dropWhile p := by
  induction l with
  | nil => rfl
  | cons c r ih =>
    cases hp : p c with
    | true =>
      simp [List.takeWhile_cons, List.dropWhile_cons, hp, List.drop_succ_cons, ih]
    | false => simp [List.takeWhile_cons, List.dropWhile_cons, hp]

theorem splitLinesAux_no_newline {l : List Char} (h : ∀ c ∈ l, c ≠ '\n') :
    ∀ acc, splitLinesAux l acc = [acc.reverse ++ l] := by
  induction l with
  | nil => intro acc; simp [splitLinesAux]
  | cons c r ih =>
    intro acc
    have hc : c ≠ '\n' := h c (List.mem_cons_self c r)
    simp only [splitLinesAux]
    rw [if_neg hc, ih (fun x hx => h x (List.mem_cons_of_mem c hx)) (c :: acc)]
    simp [List.reverse_cons, List.append_assoc]

theorem splitLinesAux_append {a : List Char} (b : List Char)
    (h : ∀ c ∈ a, c ≠ '\n') :
    ∀ acc, splitLinesAux (a ++ '\n' :: b) acc =
      (acc.reverse ++ a) :: splitLinesAux b [] := by
  induction a with
  | nil =>
    intro acc
    simp only [List.nil_append, splitLinesAux, if_pos rfl]
    simp
  | cons c r ih =>
    intro acc
    have hc : c ≠ '\n' := h c (List.mem_cons_self c r)
    simp only [List.cons_append, splitLinesAux]
    rw [if_neg hc]
    simp only [List.append_eq]
    rw [ih (fun x hx => h x (List.mem_cons_of_mem c hx)) (c :: acc)]
    simp [List.reverse_cons, List.append_assoc]

/-- `split('\n')` inverts `join('\n')` on a non-empty list of
newline-free lines. -/
theorem splitLines_joinLines : ∀ lines : List (List Char), lines ≠ [] →
    (∀ l ∈ lines, ∀ c ∈ l, c ≠ '\n') → splitLines (joinLines lines) = lines := by
  intro lines
  induction lines with
  | nil => intro h; exact absurd rfl h
  | cons l rest ih =>
    intro _ h
    cases rest with
    | nil =>
      show splitLines (joinLines [l]) = [l]
      unfold splitLines
      rw [show joinLines [l] = l from rfl]
      rw [splitLinesAux_no_newline (h l (List.mem_cons_self l [])) []]
      simp
    | cons l2 ls =>
      show splitLines (joinLines (l :: l2 :: ls)) = l :: l2 :: ls
      unfold splitLines
      rw [show joinLines (l :: l2 :: ls) = l ++ '\n' :: joinLines (l2 :: ls) from rfl]
      rw [splitLinesAux_append _ (h l (List.mem_cons_self l _)) []]
      simp only [List.reverse_nil, List.nil_append]
      have hrec := ih (by simp) (fun x hx c hc => h x (List.mem_cons_of_mem l hx) c hc)
      unfold splitLines at hrec
      rw [hrec]

/-- Each member line occupies a contiguous slice of the joined text. -/
theorem joinLines_decomp : ∀ (lines : List (List Char)) (l : List Char), l ∈ lines →
    ∃ a b, joinLines lines = a ++ (l ++ b) := by
  intro lines
  induction lines with
  | nil => intro l hl; exact absurd hl (List.not_mem_nil l)
  | cons l0 rest ih =>
    intro l hl
    cases rest with
    | nil =>
      have hll : l = l0 := by simpa using hl
      subst hll
      exact ⟨[], [], by simp [joinLines]⟩
    | cons r1 rs =>
      rcases List.mem_cons.1 hl with rfl | hmem
      · exact ⟨[], '\n' :: joinLines (r1 :: rs), by
          rw [show joinLines (l :: r1 :: rs) = l ++ '\n' :: joinLines (r1 :: rs) from rfl]
          simp⟩
      · rcases ih l hmem with ⟨a, b, hab⟩
        refine ⟨l0 ++ '\n' :: a, b, ?_⟩
        rw [show joinLines (l0 :: r1 :: rs) = l0 ++ '\n' :: joinLines (r1 :: rs) from rfl,
          hab]
        simp

theorem matchRefAt_pos {s : List Char} {v : List Char × Nat}
    (h : matchRefAt s = some v) : 1 ≤ v.2 := by
  simp only [matchRefAt] at h
  split_ifs at h with h1 h2 h3
  cases Option.some.inj h
  simp

/-- A successful anchored ref match survives appending on the right. -/
theorem matchRefAt_append_of_some {s : List Char} {r : List Char} {n : Nat}
    (h : matchRefAt s = some (r, n)) (t : List Char) :
    matchRefAt (s ++ t) = some (r, n) := by
  simp only [matchRefAt] at h ⊢
  cases hs : startsWithLit refLit s with
  | false => rw [hs] at h; simp at h
  | true =>
    rw [hs, if_pos rfl] at h
    by_cases hds : (s.drop 6).takeWhile isDigitCh = []
    · rw [if_pos hds] at h; simp at h
    · rw [if_neg hds] at h
      cases hcl : startsWithLit [']']
          ((s.drop 6).drop ((s.drop 6).takeWhile isDigitCh).length) with
      | false => rw [hcl] at h; simp at h
      | true =>
        rw [hcl, if_pos rfl] at h
        obtain ⟨v, hv⟩ := startsWithLit_singleton hcl
        have hsplit : s.drop 6 = (s.drop 6).takeWhile isDigitCh ++ ']' :: v := by
          conv_lhs => rw [← List.takeWhile_append_dropWhile (p := isDigitCh)
            (l := s.drop 6)]
          rw [← drop_length_takeWhile isDigitCh (s.drop 6), hv]
        have h6 : 6 ≤ s.length := startsWithLit_length hs
        have hsw : startsWithLit refLit (s ++ t) = true :=
          startsWithLit_append_of_true t hs
        rw [hsw, if_pos rfl]
        have hdrop : (s ++ t).drop 6 = s.drop 6 ++ t :=
          List.drop_append_of_le_length h6
        have hd : ∀ c ∈ (s.drop 6).takeWhile isDigitCh, isDigitCh c = true :=
          fun c hc => List.mem_takeWhile_imp hc
        have hshape : (s ++ t).drop 6 =
            (s.drop 6).takeWhile isDigitCh ++ ']' :: (v ++ t) := by
          rw [hdrop]
          conv_lhs => rw [hsplit]
          simp
        rw [hshape]
        have htw : ((s.drop 6).takeWhile isDigitCh ++ ']' :: (v ++ t)).takeWhile
            isDigitCh = (s.drop 6).takeWhile isDigitCh := by
          rw [takeWhile_append_all _ hd]
          have hnd : isDigitCh ']' = false := by decide
          simp [List.takeWhile_cons, hnd]
        rw [htw, if_neg hds]
        have hdrop2 : ((s.drop 6).takeWhile isDigitCh ++ ']' :: (v ++ t)).drop
            ((s.drop 6).takeWhile isDigitCh).length = ']' :: (v ++ t) :=
          List.drop_left _ _
        rw [hdrop2]
        have : startsWithLit [']'] (']' :: (v ++ t)) = true := by
          simp [startsWithLit]
        rw [this, if_pos rfl]
        exact h

theorem collectRefsL_mono_right {s : List Char} (t : List Char) {r : List Char}
    (h : r ∈ collectRefsL s) : r ∈ collectRefsL (s ++ t) := by
  induction s with
  | nil => exact absurd h (List.not_mem_nil r)
  | cons c rest ih =>
    rw [List.cons_append]
    cases hm : matchRefAt (c :: rest) with
    | none =>
      rw [collectRefsL_cons_none hm] at h
      cases hm2 : matchRefAt (c :: (rest ++ t)) with
      | none => rw [collectRefsL_cons_none hm2]; exact ih h
      | some v =>
        obtain ⟨r2, n2⟩ := v
        rw [collectRefsL_cons_some hm2]
        exact List.mem_cons_of_mem r2 (ih h)
    | some v =>
      obtain ⟨r1, n1⟩ := v
      rw [collectRefsL_cons_some hm] at h
      have hm2 : matchRefAt (c :: (rest ++ t)) = some (r1, n1) := by
        have := matchRefAt_append_of_some hm t
        simpa using this
      rw [collectRefsL_cons_some hm2]
      rcases List.mem_cons.1 h with rfl | hmem
      · exact List.mem_cons_self _ _
      · exact List.mem_cons_of_mem r1 (ih hmem)

theorem collectRefsL_mono_left (t : List Char) {s : List Char} {r : List Char}
    (h : r ∈ collectRefsL s) : r ∈ collectRefsL (t ++ s) := by
  induction t with
  | nil => exact h
  | cons c t' ih =>
    rw [List.cons_append]
    cases hm : matchRefAt (c :: (t' ++ s)) with
    | none => rw [collectRefsL_cons_none hm]; exact ih
    | some v =>
      obtain ⟨r1, n1⟩ := v
      rw [collectRefsL_cons_some hm]
      exact List.mem_cons_of_mem r1 ih

theorem scanReplace_cons_none {m : List Char → Option (Nat × List Char)}
    {c : Char} {rest : List Char} (h : m (c :: rest) = none) (fuel : Nat) :
    scanReplace m (fuel + 1) (c :: rest) = c :: scanReplace m fuel rest := by
  simp only [scanReplace, h]

theorem scanReplace_cons_some {m : List Char → Option (Nat × List Char)}
    {c : Char} {rest : List Char} {n : Nat} {repl : List Char}
    (h : m (c :: rest) = some (n, repl)) (fuel : Nat) :
    scanReplace m (fuel + 1) (c :: rest) =
      repl ++ scanReplace m fuel ((c :: rest).drop n) := by
  simp only [scanReplace, h]

theorem scanReplaceSt_cons_none {σ : Type}
    {m : σ → List Char → Option (Nat × List Char × σ)} {st : σ}
    {c : Char} {rest : List Char} (h : m st (c :: rest) = none) (fuel : Nat) :
    scanReplaceSt m (fuel + 1) st (c :: rest) =
      ((c :: (scanReplaceSt m fuel st rest).1), (scanReplaceSt m fuel st rest).2) := by
  simp only [scanReplaceSt, h]

theorem scanReplaceSt_cons_some {σ : Type}
    {m : σ → List Char → Option (Nat × List Char × σ)} {st st' : σ}
    {c : Char} {rest : List Char} {n : Nat} {repl : List Char}
    (h : m st (c :: rest) = some (n, repl, st')) (fuel : Nat) :
    scanReplaceSt m (fuel + 1) st (c :: rest) =
      ((repl ++ (scanReplaceSt m fuel st' ((c :: rest).drop n)).1),
       (scanReplaceSt m fuel st' ((c :: rest).drop n)).2) := by
  simp only [scanReplaceSt, h]

/-- The fuel is irrelevant once it covers the string length, provided the
matcher always consumes at least one character. -/
theorem scanReplace_fuel (m : List Char → Option (Nat × List Char))
    (hm : ∀ s x, m s = some x → 1 ≤ x.1) :
    ∀ (f f' : Nat) (s : List Char), s.length ≤ f → s.length ≤ f' →
      scanReplace m f s = scanReplace m f' s := by
  intro f
  induction f with
  | zero =>
    intro f' s hf _
    have hnil : s = [] := List.eq_nil_of_length_eq_zero (Nat.le_zero.1 hf)
    subst hnil
    cases f' <;> rfl
  | succ f ih =>
    intro f' s hf hf'
    cases s with
    | nil => cases f' <;> rfl
    | cons c rest =>
      cases f' with
      | zero => exact absurd hf' (by simp)
      | succ f2 =>
        cases hmc : m (c :: rest) with
        | none =>
          rw [scanReplace_cons_none hmc f, scanReplace_cons_none hmc f2]
          simp only [List.length_cons] at hf hf'
          rw [ih f2 rest (by omega) (by omega)]
        | some v =>
          obtain ⟨n, repl⟩ := v
          rw [scanReplace_cons_some hmc f, scanReplace_cons_some hmc f2]
          have hn : 1 ≤ n := hm _ _ hmc
          simp only [List.length_cons] at hf hf'
          have hl : ((c :: rest).drop n).length ≤ f := by
            rw [List.length_drop]
            simp only [List.length_cons]
            omega
          have hl2 : ((c :: rest).drop n).length ≤ f2 := by
            rw [List.length_drop]
            simp only [List.length_cons]
            omega
          rw [ih f2 _ hl hl2]

theorem scanReplaceSt_fuel {σ : Type} (m : σ → List Char → Option (Nat × List Char × σ))
    (hm : ∀ st s x, m st s = some x → 1 ≤ x.1) :
    ∀ (f f' : Nat) (st : σ) (s : List Char), s.length ≤ f → s.length ≤ f' →
      scanReplaceSt m f st s = scanReplaceSt m f' st s := by
  intro f
  induction f with
  | zero =>
    intro f' st s hf _
    have hnil : s = [] := List.eq_nil_of_length_eq_zero (Nat.le_zero.1 hf)
    subst hnil
    cases f' <;> rfl
  | succ f ih =>
    intro f' st s hf hf'
    cases s with
    | nil => cases f' <;> rfl
    | cons c rest =>
      cases f' with
      | zero => exact absurd hf' (by simp)
      | succ f2 =>
        cases hmc : m st (c :: rest) with
        | none =>
          rw [scanReplaceSt_cons_none hmc f, scanReplaceSt_cons_none hmc f2]
          simp only [List.length_cons] at hf hf'
          rw [ih f2 st rest (by omega) (by omega)]
        | some v =>
          obtain ⟨n, repl, st'⟩ := v
          rw [scanReplaceSt_cons_some hmc f, scanReplaceSt_cons_some hmc f2]
          have hn : 1 ≤ n := hm _ _ _ hmc
          simp only [List.length_cons] at hf hf'
          have hl : ((c :: rest).drop n).length ≤ f := by
            rw [List.length_drop]
            simp only [List.length_cons]
            omega
          have hl2 : ((c :: rest).drop n).length ≤ f2 := by
            rw [List.length_drop]
            simp only [List.length_cons]
            omega
          rw [ih f2 st' _ hl hl2]

/-- A replace scan whose matcher fails at every position is the identity. -/
theorem scanReplace_id_of_none (m : List Char → Option (Nat × List Char)) :
    ∀ (fuel : Nat) (s : List Char), (∀ i, m (s.drop i) = none) →
      scanReplace m fuel s = s := by
  intro fuel
  induction fuel with
  | zero => intro s _; rfl
  | succ f ih =>
    intro s h
    cases s with
    | nil => rfl
    | cons c rest =>
      have h0 : m (c :: rest) = none := by simpa using h 0
      rw [scanReplace_cons_none h0 f]
      rw [ih rest (fun i => by simpa using h (i + 1))]

theorem noMatchAnywhere_drop {m : List Char → Option (Nat × List Char)}
    {s : List Char} (h : noMatchAnywhere m s = true) :
    ∀ i, m (s.drop i) = none := by
  induction s with
  | nil =>
    intro i
    rw [List.drop_nil]
    simpa [noMatchAnywhere, Option.isNone_iff_eq_none] using h
  | cons c rest ih =>
    intro i
    simp only [noMatchAnywhere, Bool.and_eq_true, Option.isNone_iff_eq_none] at h
    cases i with
    | zero => simpa using h.1
    | succ j =>
      rw [List.drop_succ_cons]
      exact ih h.2 j

/-- The attribute matchers all require a literal starting with `[`; on a
bracket-free string they fail. -/
theorem attrMatcher_no_bracket (lit0 : List Char) (body : AttrBody) {s : List Char}
    (hs : ∀ c ∈ s, c ≠ '[') :
    attrMatcher ('[' :: lit0) body s = none := by
  have hfalse : startsWithLit ('[' :: lit0) (s.drop (s.takeWhile isWs).length) = false := by
    cases hrest : s.drop (s.takeWhile isWs).length with
    | nil => rfl
    | cons c r =>
      have hc : c ∈ s := by
        have hmem : c ∈ s.drop (s.takeWhile isWs).length := by
          rw [hrest]; exact List.mem_cons_self c r
        exact List.mem_of_mem_drop hmem
      have hne : c ≠ '[' := hs c hc
      have hdc : (decide (('[' : Char) = c)) = false :=
        decide_eq_false (fun hh => hne hh.symm)
      simp [startsWithLit, hdc]
  simp [attrMatcher, hfalse]

theorem extractRefsMatcher_pos : ∀ (st : List (List Char)) (s : List Char) x,
    extractRefsMatcher st s = some x → 1 ≤ x.1 := by
  intro st s x h
  unfold extractRefsMatcher at h
  cases hf : matchRefFullAt s with
  | none => rw [hf] at h; exact absurd h (by simp)
  | some v =>
    obtain ⟨full, n⟩ := v
    rw [hf] at h
    cases Option.some.inj h
    unfold matchRefFullAt at hf
    cases hr : matchRefAt s with
    | none => rw [hr] at hf; exact absurd hf (by simp)
    | some w =>
      obtain ⟨r0, n0⟩ := w
      rw [hr] at hf
      simp only [Option.map_some'] at hf
      cases Option.some.inj hf
      exact matchRefAt_pos hr

theorem restoreRefsMatcher_pos (refs : List (List Char)) :
    ∀ s x, restoreRefsMatcher refs s = some x → 1 ≤ x.1 := by
  intro s x h
  simp only [restoreRefsMatcher] at h
  split_ifs at h
  cases Option.some.inj h
  simp

/-- The restore matcher needs a leading underscore. -/
theorem restoreRefsMatcher_cons_ne (refs : List (List Char)) {c : Char}
    (h : c ≠ '_') (t : List Char) :
    restoreRefsMatcher refs (c :: t) = none := by
  have hdc : (decide (('_' : Char) = c)) = false :=
    decide_eq_false (fun hh => h hh.symm)
  have hfalse : startsWithLit ("__REF_".data) (c :: t) = false := by
    simp [startsWithLit, hdc]
  simp [restoreRefsMatcher, hfalse]

/-- The extract matcher needs a leading opening bracket. -/
theorem extractRefsMatcher_cons_ne (st : List (List Char)) {c : Char}
    (h : c ≠ '[') (t : List Char) :
    extractRefsMatcher st (c :: t) = none := by
  simp [extractRefsMatcher, matchRefFullAt, matchRefAt_cons_ne h]

/-- Prepending characters at which the matcher always fails commutes with
the scan. -/
theorem scanReplace_walk (m : List Char → Option (Nat × List Char))
    (hm : ∀ s x, m s = some x → 1 ≤ x.1) :
    ∀ (A B : List Char) (fuel : Nat),
      (∀ c ∈ A, ∀ t : List Char, m (c :: t) = none) →
      (A ++ B).length ≤ fuel →
      scanReplace m fuel (A ++ B) = A ++ scanReplace m B.length B := by
  intro A
  induction A with
  | nil =>
    intro B fuel _ hfuel
    simp only [List.nil_append] at hfuel ⊢
    exact scanReplace_fuel m hm fuel B.length B hfuel (le_refl _)
  | cons c A' ih =>
    intro B fuel hA hfuel
    cases fuel with
    | zero => exact absurd hfuel (by simp)
    | succ f =>
      rw [List.cons_append]
      rw [scanReplace_cons_none (hA c (List.mem_cons_self c A') (A' ++ B)) f]
      rw [ih B f (fun x hx t => hA x (List.mem_cons_of_mem c hx) t)
        (by simp only [List.length_append, List.length_cons] at hfuel ⊢; omega)]
      rfl

theorem scanReplaceSt_walk {σ : Type} (m : σ → List Char → Option (Nat × List Char × σ))
    (hm : ∀ st s x, m st s = some x → 1 ≤ x.1) :
    ∀ (A B : List Char) (fuel : Nat) (st : σ),
      (∀ c ∈ A, ∀ (st' : σ) (t : List Char), m st' (c :: t) = none) →
      (A ++ B).length ≤ fuel →
      scanReplaceSt m fuel st (A ++ B) =
        ((A ++ (scanReplaceSt m B.length st B).1),
         (scanReplaceSt m B.length st B).2) := by
  intro A
  induction A with
  | nil =>
    intro B fuel st _ hfuel
    simp only [List.nil_append] at hfuel ⊢
    rw [scanReplaceSt_fuel m hm fuel B.length st B hfuel (le_refl _)]
  | cons c A' ih =>
    intro B fuel st hA hfuel
    cases fuel with
    | zero => exact absurd hfuel (by simp)
    | succ f =>
      rw [List.cons_append]
      rw [scanReplaceSt_cons_none (hA c (List.mem_cons_self c A') st (A' ++ B)) f]
      rw [ih B f st (fun x hx st' t => hA x (List.mem_cons_of_mem c hx) st' t)
        (by simp only [List.length_append, List.length_cons] at hfuel ⊢; omega)]
      rfl

theorem charToNat_digit (m : Nat) (h : m < 10) :
    (Char.ofNat (48 + m)).toNat = 48 + m := by
  interval_cases m <;> decide

theorem digitsToNat_append_digit (xs : List Char) (c : Char) :
    digitsToNat (xs ++ [c]) = digitsToNat xs * 10 + (c.toNat - 48) := by
  unfold digitsToNat
  rw [List.foldl_append]
  rfl

theorem digitsToNat_natDigitsAux : ∀ fuel n, n < fuel →
    digitsToNat (natDigitsAux fuel n) = n := by
  intro fuel
  induction fuel with
  | zero => intro n h; exact absurd h (Nat.not_lt_zero n)
  | succ f ih =>
    intro n h
    by_cases h10 : n < 10
    · simp only [natDigitsAux, if_pos h10]
      unfold digitsToNat
      simp only [List.foldl_cons, List.foldl_nil]
      rw [charToNat_digit n h10]
      omega
    · simp only [natDigitsAux, if_neg h10]
      rw [digitsToNat_append_digit]
      have hdiv : n / 10 < f := by
        have := Nat.div_lt_self (by omega : 0 < n) (by norm_num : 1 < 10)
        omega
      rw [ih (n / 10) hdiv]
      rw [charToNat_digit (n % 10) (Nat.mod_lt _ (by norm_num))]
      omega

/-- `Number(String(n)) = n`: the placeholder index round-trips. -/
theorem digitsToNat_natDigits (n : Nat) : digitsToNat (natDigits n) = n :=
  digitsToNat_natDigitsAux (n + 1) n (Nat.lt_succ_self n)

theorem isLowerAlpha_props {c : Char} (h : isLowerAlpha c = true) :
    isWs c = false ∧ isWordChar c = true ∧ c ≠ '[' ∧ c ≠ '_' ∧ c ≠ '\n' ∧ c ≠ '"' := by
  simp only [isLowerAlpha, Bool.and_eq_true, decide_eq_true_eq] at h
  refine ⟨?_, ?_, ?_, ?_, ?_, ?_⟩
  · by_contra hws
    rw [Bool.not_eq_false] at hws
    simp only [isWs, Bool.or_eq_true, decide_eq_true_eq] at hws
    rcases hws with ((((h1 | h1) | h1) | h1) | h1) | h1 <;> (subst h1; revert h; decide)
  · simp only [isWordChar, Bool.or_eq_true, Bool.and_eq_true, decide_eq_true_eq]
    exact Or.inl (Or.inl (Or.inl ⟨h.1, h.2⟩))
  · rintro rfl; revert h; decide
  · rintro rfl; revert h; decide
  · rintro rfl; revert h; decide
  · rintro rfl; revert h; decide

theorem wfCondB_parts {w : WfLine} (h : wfCondB w = true) :
    w.wrole ≠ [] ∧ (∀ c ∈ w.wrole, isLowerAlpha c = true) ∧
    (∀ nm, w.wname = some nm → ∀ c ∈ nm, c ≠ '"' ∧ c ≠ '[' ∧ c ≠ '\n' ∧ c ≠ '_') ∧
    isPlaceholderLine (mkWfLine w) = false ∧
    isEmptyTextLine (mkWfLine w) = false ∧
    isWsTextLine (mkWfLine w) = false ∧
    isUrlLine (mkWfLine w) = false ∧
    noMatchAnywhere urlShortenMatcher (extractRefs (mkWfLine w)).1 = true := by
  simp only [wfCondB, Bool.and_eq_true] at h
  obtain ⟨⟨⟨⟨⟨⟨⟨h1, h2⟩, h3⟩, h4⟩, h5⟩, h6⟩, h7⟩, h8⟩ := h
  refine ⟨?_, ?_, ?_, ?_, ?_, ?_, ?_, h8⟩
  · simpa [List.isEmpty_iff] using h1
  · intro c hc
    exact (List.all_eq_true.1 h2) c hc
  · intro nm hnm c hc
    rw [hnm] at h3
    have hpc := (List.all_eq_true.1 h3) c hc
    simp only [Bool.and_eq_true, bne_iff_ne, ne_eq] at hpc
    exact ⟨hpc.1.1.1, hpc.1.1.2, hpc.1.2, hpc.2⟩
  · simpa using h4
  · simpa using h5
  · simpa using h6
  · simpa using h7

theorem wfHead_chars {w : WfLine} (h : wfCondB w = true) :
    ∀ c ∈ wfHead w, c ≠ '[' ∧ c ≠ '_' ∧ c ≠ '\n' := by
  obtain ⟨hrne, hrole, hname, -, -, -, -, -⟩ := wfCondB_parts h
  intro c hc
  simp only [wfHead, spacesN, List.mem_append, List.mem_cons] at hc
  rcases hc with hsp | rfl | rfl | hr | hn
  · obtain ⟨-, rfl⟩ := List.mem_replicate.1 hsp
    exact ⟨by decide, by decide, by decide⟩
  · exact ⟨by decide, by decide, by decide⟩
  · exact ⟨by decide, by decide, by decide⟩
  · have hp := isLowerAlpha_props (hrole c hr)
    exact ⟨hp.2.2.1, hp.2.2.2.1, hp.2.2.2.2.1⟩
  · cases hwn : w.wname with
    | none => rw [hwn] at hn; simp at hn
    | some nm =>
      rw [hwn] at hn
      simp only [List.mem_cons, List.mem_append, List.mem_singleton] at hn
      rcases hn with rfl | rfl | hnm | rfl | habs
      · exact ⟨by decide, by decide, by decide⟩
      · exact ⟨by decide, by decide, by decide⟩
      · have hq := hname nm hwn c hnm
        exact ⟨hq.2.1, hq.2.2.2, hq.2.2.1⟩
      · exact ⟨by decide, by decide, by decide⟩
      · exact absurd habs (List.not_mem_nil c)

theorem matchText_no_newline (n : Nat) : ∀ c ∈ matchText n, c ≠ '\n' := by
  intro c hc
  simp only [matchText, List.mem_cons, List.mem_append] at hc
  rcases hc with rfl | rfl | rfl | rfl | rfl | rfl | hds | rfl | habs
  · decide
  · decide
  · decide
  · decide
  · decide
  · decide
  · exact isDigitCh_ne_newline (natDigits_all_digits n c hds)
  · decide
  · exact absurd habs (List.not_mem_nil c)

theorem wfSuffix_no_newline : ∀ refs : List Nat, ∀ c ∈ wfSuffix refs, c ≠ '\n' := by
  intro refs
  induction refs with
  | nil => intro c hc; exact absurd hc (List.not_mem_nil c)
  | cons n rest ih =>
    intro c hc
    simp only [wfSuffix, refAttr, List.mem_append, List.mem_cons] at hc
    rcases hc with (rfl | hmt) | hr
    · decide
    · exact matchText_no_newline n c hmt
    · exact ih c hr

theorem mkWfLine_no_newline {w : WfLine} (h : wfCondB w = true) :
    ∀ c ∈ mkWfLine w, c ≠ '\n' := by
  intro c hc
  simp only [mkWfLine] at hc
  rcases List.mem_append.1 hc with h1 | h2
  · exact (wfHead_chars h c h1).2.2
  · exact wfSuffix_no_newline _ c h2

theorem refPlaceholder_no_bracket (i : Nat) : ∀ c ∈ refPlaceholder i, c ≠ '[' := by
  intro c hc
  simp only [refPlaceholder, List.mem_append] at hc
  rcases hc with (hc | hc) | hc
  · exact (by decide : ∀ x ∈ ("__REF_".data), x ≠ '[') c hc
  · exact isDigitCh_ne_bracket (natDigits_all_digits i c hc)
  · exact (by decide : ∀ x ∈ ("__".data), x ≠ '[') c hc

theorem phSuffix_no_bracket : ∀ (refs : List Nat) (i : Nat),
    ∀ c ∈ phSuffix refs i, c ≠ '[' := by
  intro refs
  induction refs with
  | nil => intro i c hc; exact absurd hc (List.not_mem_nil c)
  | cons n rest ih =>
    intro i c hc
    simp only [phSuffix, List.mem_cons, List.mem_append] at hc
    rcases hc with rfl | hph | h4
    · decide
    · exact refPlaceholder_no_bracket i c hph
    · exact ih (i + 1) c h4

theorem wfSuffix_cons (n : Nat) (rest : List Nat) :
    wfSuffix (n :: rest) = ' ' :: (matchText n ++ wfSuffix rest) := rfl

theorem matchText_append (n : Nat) (S : List Char) :
    matchText n ++ S =
      '[' :: 'r' :: 'e' :: 'f' :: '=' :: 'e' :: (natDigits n ++ ']' :: S) := by
  simp [matchText, List.append_assoc]

theorem matchText_length (n : Nat) :
    (matchText n).length = 6 + (natDigits n).length + 1 := by
  simp [matchText]
  omega

theorem refPlaceholder_length (i : Nat) :
    (refPlaceholder i).length = 6 + (natDigits i).length + 2 := by
  simp [refPlaceholder]
  omega

theorem getD_map_matchText : ∀ (l : List Nat) (j : Nat), j < l.length →
    (l.map matchText).getD j ("undefined".data) = matchText (l.getD j 0) := by
  intro l
  induction l with
  | nil => intro j hj; exact absurd hj (by simp)
  | cons a l' ih =>
    intro j hj
    cases j with
    | zero => rfl
    | succ j' =>
      simp only [List.map_cons, List.getD_cons_succ]
      exact ih j' (by simpa using hj)

/-- The extract matcher consumes one full `[ref=eN]` tag, pushing its text
and emitting the indexed placeholder. -/
theorem extractRefsMatcher_tag (st : List (List Char)) (n : Nat) (T : List Char) :
    extractRefsMatcher st (matchText n ++ T) =
      some (6 + (natDigits n).length + 1, refPlaceholder st.length,
        matchText n :: st) := by
  unfold extractRefsMatcher
  have hfull : matchRefFullAt (matchText n ++ T) =
      some (matchText n, 6 + (natDigits n).length + 1) := by
    unfold matchRefFullAt
    rw [matchText_append, matchRefAt_refstr (natDigits n) T (natDigits_ne_nil n)
      (natDigits_all_digits n)]
    simp only [Option.map_some']
    rw [← matchText_append]
    rw [List.take_left' (matchText_length n)]
  rw [hfull]

/-- The restore matcher consumes one placeholder `__REF_i__` and inserts
the `i`-th saved tag. -/
theorem restoreRefsMatcher_placeholder (refsL : List (List Char)) (i : Nat)
    (T : List Char) :
    restoreRefsMatcher refsL (refPlaceholder i ++ T) =
      some (6 + (natDigits i).length + 2, refsL.getD i ("undefined".data)) := by
  have hshape : refPlaceholder i ++ T =
      ("__REF_".data) ++ (natDigits i ++ ('_' :: '_' :: T)) := by
    simp [refPlaceholder, List.append_assoc]
  rw [hshape]
  simp only [restoreRefsMatcher]
  rw [startsWithLit_append_self, if_pos rfl]
  have hdrop : (("__REF_".data) ++ (natDigits i ++ ('_' :: '_' :: T))).drop 6 =
      natDigits i ++ ('_' :: '_' :: T) := List.drop_left' (by decide)
  rw [hdrop]
  have htw : (natDigits i ++ ('_' :: '_' :: T)).takeWhile isDigitCh = natDigits i := by
    rw [takeWhile_append_all _ (natDigits_all_digits i)]
    have hnd : isDigitCh '_' = false := by decide
    simp [List.takeWhile_cons, hnd]
  rw [htw]
  have hne : (natDigits i).isEmpty = false := by
    cases hnd : natDigits i with
    | nil => exact absurd hnd (natDigits_ne_nil i)
    | cons d ds => rfl
  rw [hne]
  simp only [Bool.false_eq_true, if_false]
  have hdrop2 : (natDigits i ++ ('_' :: '_' :: T)).drop (natDigits i).length =
      '_' :: '_' :: T := List.drop_left _ _
  rw [hdrop2]
  have hsw : startsWithLit ("__".data) ('_' :: '_' :: T) = true := by
    simp [startsWithLit]
  rw [hsw, if_pos rfl]
  rw [digitsToNat_natDigits]

/-- Running the extract scan over a well-formed ref suffix yields the
placeholder suffix and pushes each tag text (most recent first). -/
theorem extract_wfSuffix : ∀ (refs : List Nat) (st : List (List Char)) (fuel : Nat),
    (wfSuffix refs).length ≤ fuel →
    scanReplaceSt extractRefsMatcher fuel st (wfSuffix refs) =
      (phSuffix refs st.length, (refs.map matchText).reverse ++ st) := by
  intro refs
  induction refs with
  | nil =>
    intro st fuel _
    cases fuel <;> rfl
  | cons n rest ih =>
    intro st fuel hfuel
    rw [wfSuffix_cons] at hfuel ⊢
    cases fuel with
    | zero => exact absurd hfuel (by simp)
    | succ f =>
      have hsp : extractRefsMatcher st (' ' :: (matchText n ++ wfSuffix rest)) = none :=
        extractRefsMatcher_cons_ne st (by decide) _
      rw [scanReplaceSt_cons_none hsp f]
      have hlen : (matchText n).length + (wfSuffix rest).length ≤ f := by
        simpa [List.length_append] using hfuel
      have hmt : 8 ≤ (matchText n).length := by
        rw [matchText_length]
        have : 1 ≤ (natDigits n).length :=
          List.length_pos.2 (natDigits_ne_nil n)
        omega
      cases f with
      | zero => omega
      | succ g =>
        have htag := extractRefsMatcher_tag st n (wfSuffix rest)
        rw [matchText_append] at htag
        rw [matchText_append]
        rw [scanReplaceSt_cons_some htag g]
        have hdropX : ('[' :: 'r' :: 'e' :: 'f' :: '=' :: 'e' ::
            (natDigits n ++ ']' :: wfSuffix rest)).drop
              (6 + (natDigits n).length + 1) = wfSuffix rest := by
          rw [← matchText_append]
          exact List.drop_left' (matchText_length n)
        rw [hdropX]
        have hg : (wfSuffix rest).length ≤ g := by
          rw [matchText_length] at hlen
          omega
        rw [ih (matchText n :: st) g hg]
        simp [phSuffix, List.reverse_cons, List.append_assoc]

/-- Running the restore scan over a placeholder suffix rebuilds the
well-formed ref suffix, provided the saved list holds the matching tag
texts from index `i` on. -/
theorem restore_phSuffix : ∀ (refs : List Nat) (refsL : List (List Char)) (i : Nat)
    (fuel : Nat), (phSuffix refs i).length ≤ fuel →
    (∀ j, j < refs.length → refsL.getD (i + j) ("undefined".data) =
      matchText (refs.getD j 0)) →
    scanReplace (restoreRefsMatcher refsL) fuel (phSuffix refs i) = wfSuffix refs := by
  intro refs
  induction refs with
  | nil => intro refsL i fuel _ _; cases fuel <;> rfl
  | cons n rest ih =>
    intro refsL i fuel hfuel hrefs
    rw [show phSuffix (n :: rest) i =
      ' ' :: (refPlaceholder i ++ phSuffix rest (i + 1)) from rfl] at hfuel ⊢
    cases fuel with
    | zero => exact absurd hfuel (by simp)
    | succ f =>
      rw [scanReplace_cons_none (restoreRefsMatcher_cons_ne refsL (by decide) _) f]
      have hlen : (refPlaceholder i).length + (phSuffix rest (i + 1)).length ≤ f := by
        simpa [List.length_append] using hfuel
      have hpl : 8 ≤ (refPlaceholder i).length := by
        rw [refPlaceholder_length]
        have : 1 ≤ (natDigits i).length :=
          List.length_pos.2 (natDigits_ne_nil i)
        omega
      cases f with
      | zero => omega
      | succ g =>
        have hstep := restoreRefsMatcher_placeholder refsL i (phSuffix rest (i + 1))
        have hshape : refPlaceholder i ++ phSuffix rest (i + 1) =
            ("__REF_".data) ++ (natDigits i ++
              ('_' :: '_' :: phSuffix rest (i + 1))) := by
          simp [refPlaceholder, List.append_assoc]
        rw [hshape] at hstep ⊢
        rw [show ("__REF_".data) ++ (natDigits i ++
            ('_' :: '_' :: phSuffix rest (i + 1))) =
          '_' :: '_' :: 'R' :: 'E' :: 'F' :: '_' ::
            (natDigits i ++ ('_' :: '_' :: phSuffix rest (i + 1))) from rfl] at hstep ⊢
        rw [scanReplace_cons_some hstep g]
        have hdropX : ('_' :: '_' :: 'R' :: 'E' :: 'F' :: '_' ::
            (natDigits i ++ ('_' :: '_' :: phSuffix rest (i + 1)))).drop
              (6 + (natDigits i).length + 2) = phSuffix rest (i + 1) := by
          rw [show ('_' :: '_' :: 'R' :: 'E' :: 'F' :: '_' ::
            (natDigits i ++ ('_' :: '_' :: phSuffix rest (i + 1)))) =
            ("__REF_".data) ++ (natDigits i ++
              ('_' :: '_' :: phSuffix rest (i + 1))) from rfl, ← hshape]
          exact List.drop_left' (refPlaceholder_length i)
        rw [hdropX]
        have hg : (phSuffix rest (i + 1)).length ≤ g := by
          rw [refPlaceholder_length] at hlen
          omega
        have hr0 : refsL.getD i ("undefined".data) = matchText n := by
          have h0 := hrefs 0 (by simp)
          simpa using h0
        rw [hr0]
        rw [ih refsL (i + 1) g hg (fun j hj => by
          have hj1 := hrefs (j + 1) (by simpa using Nat.succ_lt_succ hj)
          rw [show i + (j + 1) = i + 1 + j by omega] at hj1
          simpa [List.getD_cons_succ] using hj1)]
        rfl

/-- On a well-formed line, ref extraction yields the placeholder form and
the tag texts in order. -/
theorem extractRefs_mkWfLine {w : WfLine} (h : wfCondB w = true) :
    extractRefs (mkWfLine w) =
      (wfHead w ++ phSuffix w.wrefs 0, w.wrefs.map matchText) := by
  simp only [extractRefs, mkWfLine]
  rw [scanReplaceSt_walk extractRefsMatcher extractRefsMatcher_pos
    (wfHead w) (wfSuffix w.wrefs) (wfHead w ++ wfSuffix w.wrefs).length []
    (fun c hc st' t => extractRefsMatcher_cons_ne st' (wfHead_chars h c hc).1 t)
    (le_refl _)]
  rw [extract_wfSuffix w.wrefs [] (wfSuffix w.wrefs).length (le_refl _)]
  simp

/-- `pruneAttributesLine` is the identity on well-formed lines: the URL
rewrite is blocked by well-formedness, the attribute rewrites find no
bracket outside the extracted tags, and extraction round-trips through
the placeholders. -/
theorem pruneAttributesLine_wf {w : WfLine} (h : wfCondB w = true) :
    pruneAttributesLine (mkWfLine w) = mkWfLine w := by
  obtain ⟨-, -, -, -, -, -, -, hnm⟩ := wfCondB_parts h
  have hex := extractRefs_mkWfLine h
  have hc1nb : ∀ c ∈ wfHead w ++ phSuffix w.wrefs 0, c ≠ '[' := by
    intro c hc
    rcases List.mem_append.1 hc with h1 | h2
    · exact (wfHead_chars h c h1).1
    · exact phSuffix_no_bracket _ 0 c h2
  have hurl : scanReplace urlShortenMatcher
      (wfHead w ++ phSuffix w.wrefs 0).length (wfHead w ++ phSuffix w.wrefs 0) =
      wfHead w ++ phSuffix w.wrefs 0 := by
    apply scanReplace_id_of_none
    apply noMatchAnywhere_drop
    rw [hex] at hnm
    exact hnm
  have hattr : ∀ (lit0 : List Char) (body : AttrBody),
      scanReplace (attrMatcher ('[' :: lit0) body)
        (wfHead w ++ phSuffix w.wrefs 0).length (wfHead w ++ phSuffix w.wrefs 0) =
        wfHead w ++ phSuffix w.wrefs 0 := by
    intro lit0 body
    apply scanReplace_id_of_none
    intro i
    exact attrMatcher_no_bracket lit0 body
      (fun c hc => hc1nb c (List.mem_of_mem_drop hc))
  have hattr1 : scanReplace (attrMatcher ("[url=".data) .anyNonBracket)
      (wfHead w ++ phSuffix w.wrefs 0).length (wfHead w ++ phSuffix w.wrefs 0) =
      wfHead w ++ phSuffix w.wrefs 0 := hattr ("url=".data) .anyNonBracket
  have hattr2 : scanReplace (attrMatcher ("[description=\"\"".data) .exact0)
      (wfHead w ++ phSuffix w.wrefs 0).length (wfHead w ++ phSuffix w.wrefs 0) =
      wfHead w ++ phSuffix w.wrefs 0 := hattr ("description=\"\"".data) .exact0
  have hattr3 : scanReplace (attrMatcher ("[focused".data) .exact0)
      (wfHead w ++ phSuffix w.wrefs 0).length (wfHead w ++ phSuffix w.wrefs 0) =
      wfHead w ++ phSuffix w.wrefs 0 := hattr ("focused".data) .exact0
  have hattr4 : scanReplace (attrMatcher ("[disabled=false".data) .exact0)
      (wfHead w ++ phSuffix w.wrefs 0).length (wfHead w ++ phSuffix w.wrefs 0) =
      wfHead w ++ phSuffix w.wrefs 0 := hattr ("disabled=false".data) .exact0
  have hattr5 : scanReplace (attrMatcher ("[level=".data) .digits1)
      (wfHead w ++ phSuffix w.wrefs 0).length (wfHead w ++ phSuffix w.wrefs 0) =
      wfHead w ++ phSuffix w.wrefs 0 := hattr ("level=".data) .digits1
  have hrestore : scanReplace (restoreRefsMatcher (w.wrefs.map matchText))
      (wfHead w ++ phSuffix w.wrefs 0).length (wfHead w ++ phSuffix w.wrefs 0) =
      mkWfLine w := by
    rw [scanReplace_walk (restoreRefsMatcher (w.wrefs.map matchText))
      (restoreRefsMatcher_pos _) (wfHead w) (phSuffix w.wrefs 0)
      (wfHead w ++ phSuffix w.wrefs 0).length
      (fun c hc t => restoreRefsMatcher_cons_ne _ (wfHead_chars h c hc).2.1 t)
      (le_refl _)]
    rw [restore_phSuffix w.wrefs (w.wrefs.map matchText) 0
      (phSuffix w.wrefs 0).length (le_refl _)
      (fun j hj => by simpa using getD_map_matchText w.wrefs j hj)]
    rfl
  simp only [pruneAttributesLine]
  rw [hex]
  dsimp only
  rw [hurl, hattr1, hattr2, hattr3, hattr4, hattr5, hrestore]

/-- `parseLine` on a well-formed line: the role parses whole, the name
group matches exactly the quoted name, and the suffix is the full ref
suffix. -/
theorem parseLine_mkWfLine {w : WfLine} (h : wfCondB w = true) :
    parseLine (mkWfLine w) =
      some ⟨spacesN w.ind ++ ['-', ' '], lowerStr w.wrole, w.wname,
        wfSuffix w.wrefs, findRefIn (wfSuffix w.wrefs), mkWfLine w⟩ := by
  obtain ⟨hrne, hrole, hname, -, -, -, -, -⟩ := wfCondB_parts h
  obtain ⟨ind, wrole, wname, wrefs⟩ := w
  have hspws : ∀ c ∈ spacesN ind, isWs c = true := by
    intro c hc
    obtain ⟨-, rfl⟩ := List.mem_replicate.1 hc
    decide
  cases wrole with
  | nil => exact absurd rfl hrne
  | cons c0 role' =>
  have hc0 := isLowerAlpha_props (hrole c0 (List.mem_cons_self c0 role'))
  have hword : ∀ c ∈ role', isWordChar c = true :=
    fun c hc => (isLowerAlpha_props (hrole c (List.mem_cons_of_mem c0 hc))).2.1
  cases wname with
  | none =>
    have hL : mkWfLine ⟨ind, c0 :: role', none, wrefs⟩ =
        spacesN ind ++ '-' :: ' ' :: c0 :: (role' ++ wfSuffix wrefs) := by
      simp [mkWfLine, wfHead]
    rw [hL]
    simp only [parseLine]
    have hdw : (spacesN ind ++ '-' :: ' ' :: c0 :: (role' ++ wfSuffix wrefs)).dropWhile
        isWs = '-' :: ' ' :: c0 :: (role' ++ wfSuffix wrefs) := by
      rw [dropWhile_append_all _ hspws]
      exact List.dropWhile_cons_of_neg (by decide)
    rw [hdw]
    simp only []
    have hws1 : (spacesN ind ++ '-' :: ' ' :: c0 :: (role' ++ wfSuffix wrefs)).takeWhile
        isWs = spacesN ind := by
      rw [takeWhile_append_all _ hspws]
      have hd : isWs '-' = false := by decide
      simp [List.takeWhile_cons, hd]
    rw [hws1]
    have hws2 : ((' ' :: c0 :: (role' ++ wfSuffix wrefs)).takeWhile isWs) = [' '] := by
      rw [List.takeWhile_cons_of_pos (by decide)]
      rw [List.takeWhile_cons_of_neg (by simp [hc0.1])]
    rw [hws2]
    have hr3 : ((' ' :: c0 :: (role' ++ wfSuffix wrefs)).dropWhile isWs) =
        c0 :: (role' ++ wfSuffix wrefs) := by
      rw [List.dropWhile_cons_of_pos (by decide)]
      exact List.dropWhile_cons_of_neg (by simp [hc0.1])
    rw [hr3]
    have hS : (wfSuffix wrefs).takeWhile isWordChar = [] := by
      cases wrefs with
      | nil => rfl
      | cons n tl =>
        rw [wfSuffix_cons]
        exact List.takeWhile_cons_of_neg (by decide)
    have hSd : (wfSuffix wrefs).dropWhile isWordChar = wfSuffix wrefs := by
      cases wrefs with
      | nil => rfl
      | cons n tl =>
        rw [wfSuffix_cons]
        exact List.dropWhile_cons_of_neg (by decide)
    have hrw : ((c0 :: (role' ++ wfSuffix wrefs)).takeWhile isWordChar) = c0 :: role' := by
      rw [List.takeWhile_cons_of_pos hc0.2.1]
      rw [takeWhile_append_all _ hword, hS]
      simp
    rw [hrw]
    have hrest : ((c0 :: (role' ++ wfSuffix wrefs)).dropWhile isWordChar) =
        wfSuffix wrefs := by
      rw [List.dropWhile_cons_of_pos hc0.2.1]
      rw [dropWhile_append_all _ hword, hSd]
    rw [hrest]
    rw [if_neg (List.cons_ne_nil c0 role')]
    cases wrefs with
    | nil =>
      simp [wfSuffix]
    | cons n tl =>
      rw [wfSuffix_cons]
      have hsp : ((' ' :: (matchText n ++ wfSuffix tl)).takeWhile isWs) = [' '] := by
        rw [List.takeWhile_cons_of_pos (by decide)]
        rw [matchText_append]
        rw [List.takeWhile_cons_of_neg (by decide)]
      rw [hsp]
      rw [if_neg (by decide : ¬(([' '] : List Char).isEmpty = true))]
      have hasp : ((' ' :: (matchText n ++ wfSuffix tl)).dropWhile isWs) =
          '[' :: 'r' :: 'e' :: 'f' :: '=' :: 'e' :: (natDigits n ++ ']' :: wfSuffix tl) := by
        rw [List.dropWhile_cons_of_pos (by decide), matchText_append]
        exact List.dropWhile_cons_of_neg (by decide)
      rw [hasp]
      rfl
  | some nm =>
    have hnmc := hname nm rfl
    have hL : mkWfLine ⟨ind, c0 :: role', some nm, wrefs⟩ =
        spacesN ind ++ '-' :: ' ' :: c0 ::
          (role' ++ (' ' :: '"' :: (nm ++ '"' :: wfSuffix wrefs))) := by
      simp [mkWfLine, wfHead]
    rw [hL]
    simp only [parseLine]
    have hdw : (spacesN ind ++ '-' :: ' ' :: c0 ::
        (role' ++ (' ' :: '"' :: (nm ++ '"' :: wfSuffix wrefs)))).dropWhile isWs =
        '-' :: ' ' :: c0 :: (role' ++ (' ' :: '"' :: (nm ++ '"' :: wfSuffix wrefs))) := by
      rw [dropWhile_append_all _ hspws]
      exact List.dropWhile_cons_of_neg (by decide)
    rw [hdw]
    simp only []
    have hws1 : (spacesN ind ++ '-' :: ' ' :: c0 ::
        (role' ++ (' ' :: '"' :: (nm ++ '"' :: wfSuffix wrefs)))).takeWhile isWs =
        spacesN ind := by
      rw [takeWhile_append_all _ hspws]
      have hd : isWs '-' = false := by decide
      simp [List.takeWhile_cons, hd]
    rw [hws1]
    have hws2 : ((' ' :: c0 ::
        (role' ++ (' ' :: '"' :: (nm ++ '"' :: wfSuffix wrefs)))).takeWhile isWs) =
        [' '] := by
      rw [List.takeWhile_cons_of_pos (by decide)]
      rw [List.takeWhile_cons_of_neg (by simp [hc0.1])]
    rw [hws2]
    have hr3 : ((' ' :: c0 ::
        (role' ++ (' ' :: '"' :: (nm ++ '"' :: wfSuffix wrefs)))).dropWhile isWs) =
        c0 :: (role' ++ (' ' :: '"' :: (nm ++ '"' :: wfSuffix wrefs))) := by
      rw [List.dropWhile_cons_of_pos (by decide)]
      exact List.dropWhile_cons_of_neg (by simp [hc0.1])
    rw [hr3]
    have hrw : ((c0 :: (role' ++ (' ' :: '"' :: (nm ++ '"' :: wfSuffix wrefs)))).takeWhile
        isWordChar) = c0 :: role' := by
      rw [List.takeWhile_cons_of_pos hc0.2.1]
      rw [takeWhile_append_all _ hword]
      rw [List.takeWhile_cons_of_neg (by decide)]
      simp
    rw [hrw]
    have hrest : ((c0 :: (role' ++
        (' ' :: '"' :: (nm ++ '"' :: wfSuffix wrefs)))).dropWhile isWordChar) =
        ' ' :: '"' :: (nm ++ '"' :: wfSuffix wrefs) := by
      rw [List.dropWhile_cons_of_pos hc0.2.1]
      rw [dropWhile_append_all _ hword]
      exact List.dropWhile_cons_of_neg (by decide)
    rw [hrest]
    rw [if_neg (List.cons_ne_nil c0 role')]
    have hsp : ((' ' :: '"' :: (nm ++ '"' :: wfSuffix wrefs)).takeWhile isWs) = [' '] := by
      rw [List.takeWhile_cons_of_pos (by decide)]
      rw [List.takeWhile_cons_of_neg (by decide)]
    rw [hsp]
    rw [if_neg (by decide : ¬(([' '] : List Char).isEmpty = true))]
    have hasp : ((' ' :: '"' :: (nm ++ '"' :: wfSuffix wrefs)).dropWhile isWs) =
        '"' :: (nm ++ '"' :: wfSuffix wrefs) := by
      rw [List.dropWhile_cons_of_pos (by decide)]
      exact List.dropWhile_cons_of_neg (by decide)
    rw [hasp]
    simp only []
    have hnmtake : ((nm ++ '"' :: wfSuffix wrefs).takeWhile (fun x => x != '"')) = nm := by
      rw [takeWhile_append_all _ (fun c hc => by
        simp only [bne_iff_ne, ne_eq, decide_not]
        simp [(hnmc c hc).1])]
      have hq : (('"' : Char) != '"') = false := by decide
      simp [List.takeWhile_cons, hq]
    rw [hnmtake]
    have hdropnm : ((nm ++ '"' :: wfSuffix wrefs).drop nm.length) =
        '"' :: wfSuffix wrefs := List.drop_left _ _
    rw [hdropnm]
    rfl

/-- Each of `semanticCompress` and `truncateLongNames` either leaves a line
unchanged or rebuilds it with `buildLine`, keeping the parsed suffix. -/
theorem semanticCompressLine_cases (l : List Char) :
    semanticCompressLine l = l ∨ ∃ p nm', parseLine l = some p ∧
      semanticCompressLine l = buildLine p.pfx p.role (some nm') p.sfx := by
  rcases hp : parseLine l with _ | p
  · left; simp [semanticCompressLine, hp]
  · rcases hn : p.name with _ | nm
    · left; simp [semanticCompressLine, hp, hn]
    · by_cases hne : nm.isEmpty = true
      · left; simp [semanticCompressLine, hp, hn, hne]
      · by_cases hcmp : compressFlightName nm ≠ nm
        · right
          refine ⟨p, compressFlightName nm, rfl, ?_⟩
          simp only [semanticCompressLine, hp, hn]
          rw [if_neg (by simp [hne]), if_pos hcmp]
        · by_cases hsw : stopWordChain nm ≠ nm
          · right
            refine ⟨p, stopWordChain nm, rfl, ?_⟩
            simp only [semanticCompressLine, hp, hn]
            rw [if_neg (by simp [hne]), if_neg hcmp, if_pos hsw]
          · left
            simp only [semanticCompressLine, hp, hn]
            rw [if_neg (by simp [hne]), if_neg hcmp, if_neg hsw]

theorem truncateLongNamesLine_cases (mx : Nat) (l : List Char) :
    truncateLongNamesLine mx l = l ∨ ∃ p nm', parseLine l = some p ∧
      truncateLongNamesLine mx l = buildLine p.pfx p.role (some nm') p.sfx := by
  rcases hp : parseLine l with _ | p
  · left; simp [truncateLongNamesLine, hp]
  · rcases hn : p.name with _ | nm
    · left; simp [truncateLongNamesLine, hp, hn]
    · by_cases hlen : mx < nm.length
      · right
        refine ⟨p, stripLastWsWord (nm.take mx) ++ ("...".data), rfl, ?_⟩
        simp only [truncateLongNamesLine, hp, hn]
        rw [if_pos hlen]
      · left
        simp only [truncateLongNamesLine, hp, hn]
        rw [if_neg hlen]

theorem listMap_id_of {α : Type} {f : α → α} : ∀ {l : List α},
    (∀ a ∈ l, f a = a) → l.map f = l := by
  intro l
  induction l with
  | nil => intro _; rfl
  | cons a l' ih =>
    intro h
    simp only [List.map_cons]
    rw [h a (List.mem_cons_self a l'), ih (fun x hx => h x (List.mem_cons_of_mem a hx))]

theorem refs_buildLine (pfx role : List Char) (nmo : Option (List Char))
    (sfx : List Char) {r : List Char} (h : r ∈ collectRefsL sfx) :
    r ∈ collectRefsL (buildLine pfx role nmo sfx) := by
  simp only [buildLine]
  exact collectRefsL_mono_left _ h

theorem collectRefsL_mkWfLine {w : WfLine} (h : wfCondB w = true) :
    collectRefsL (mkWfLine w) = collectRefsL (wfSuffix w.wrefs) := by
  simp only [mkWfLine]
  exact collectRefsL_append_left_of_no_bracket _ (fun c hc => (wfHead_chars h c hc).1)

theorem refs_line_preserved {w : WfLine} (h : wfCondB w = true) {out : List Char}
    (hout : out = mkWfLine w ∨ ∃ p nm', parseLine (mkWfLine w) = some p ∧
      out = buildLine p.pfx p.role (some nm') p.sfx)
    {r : List Char} (hr : r ∈ collectRefsL (mkWfLine w)) : r ∈ collectRefsL out := by
  rcases hout with rfl | ⟨p, nm', hp, rfl⟩
  · exact hr
  · rw [parseLine_mkWfLine h] at hp
    cases Option.some.inj hp
    apply refs_buildLine
    rw [collectRefsL_mkWfLine h] at hr
    exact hr

theorem removeNoise_wf (ws : List WfLine) (hw : ∀ w ∈ ws, wfCondB w = true)
    (hne : ws ≠ []) : removeNoise (mkWfOutline ws) = mkWfOutline ws := by
  unfold removeNoise
  have hnl : ∀ l ∈ ws.map mkWfLine, ∀ c ∈ l, c ≠ '\n' := by
    intro l hl
    obtain ⟨w, hwmem, rfl⟩ := List.mem_map.1 hl
    exact mkWfLine_no_newline (hw w hwmem)
  have hsplit : splitLines (mkWfOutline ws).data = ws.map mkWfLine :=
    splitLines_joinLines _ (fun hmape => hne (by simpa using hmape)) hnl
  rw [hsplit]
  have hfilter : removeNoiseL (ws.map mkWfLine) = ws.map mkWfLine := by
    unfold removeNoiseL
    apply List.filter_eq_self.2
    intro l hl
    obtain ⟨w, hwmem, rfl⟩ := List.mem_map.1 hl
    obtain ⟨-, -, -, h4, h5, h6, -, -⟩ := wfCondB_parts (hw w hwmem)
    simp [h4, h5, h6]
  rw [hfilter]
  rfl

theorem pruneAttributes_wf (ws : List WfLine) (hw : ∀ w ∈ ws, wfCondB w = true)
    (hne : ws ≠ []) : pruneAttributes (mkWfOutline ws) = mkWfOutline ws := by
  unfold pruneAttributes
  have hnl : ∀ l ∈ ws.map mkWfLine, ∀ c ∈ l, c ≠ '\n' := by
    intro l hl
    obtain ⟨w, hwmem, rfl⟩ := List.mem_map.1 hl
    exact mkWfLine_no_newline (hw w hwmem)
  have hsplit : splitLines (mkWfOutline ws).data = ws.map mkWfLine :=
    splitLines_joinLines _ (fun hmape => hne (by simpa using hmape)) hnl
  rw [hsplit]
  have hfilter : (ws.map mkWfLine).filter (fun l => !isUrlLine l) = ws.map mkWfLine := by
    apply List.filter_eq_self.2
    intro l hl
    obtain ⟨w, hwmem, rfl⟩ := List.mem_map.1 hl
    obtain ⟨-, -, -, -, -, -, h7, -⟩ := wfCondB_parts (hw w hwmem)
    simp [h7]
  rw [hfilter]
  have hmap : (ws.map mkWfLine).map pruneAttributesLine = ws.map mkWfLine := by
    apply listMap_id_of
    intro l hl
    obtain ⟨w, hwmem, rfl⟩ := List.mem_map.1 hl
    exact pruneAttributesLine_wf (hw w hwmem)
  rw [hmap]
  rfl

/-- C2 (amended): on outlines made of well-formed lines (`wfCondB`), the
four reducers `pruneAttributes`, `removeNoise`, `semanticCompress` and
`truncateLongNames` preserve every `[ref=eN]` reference: `pruneAttributes`
and `removeNoise` are the identity there, and the two rewriting reducers
only replace the quoted name, keeping the ref suffix.  (The claim's other
reducers — `stripChrome`, `dedupLinks`, `collapseRedundantChildren` — do
drop refs, per the counterexample.) -/
theorem safe_reducers_preserve_refs (ws : List WfLine)
    (hw : ∀ w ∈ ws, wfCondB w = true) (r : String)
    (hr : r ∈ collectRefsStr (mkWfOutline ws)) :
    r ∈ collectRefsStr (pruneAttributes (mkWfOutline ws)) ∧
    r ∈ collectRefsStr (removeNoise (mkWfOutline ws)) ∧
    r ∈ collectRefsStr (semanticCompress (mkWfOutline ws)) ∧
    r ∈ collectRefsStr (truncateLongNames (mkWfOutline ws)) := by
  have hnl : ∀ l ∈ ws.map mkWfLine, ∀ c ∈ l, c ≠ '\n' := by
    intro l hl
    obtain ⟨w, hwmem, rfl⟩ := List.mem_map.1 hl
    exact mkWfLine_no_newline (hw w hwmem)
  have hr' := hr
  simp only [collectRefsStr] at hr'
  obtain ⟨rl, hrl, hras⟩ := List.mem_map.1 hr'
  have hrlJ : rl ∈ collectRefsL (joinLines (ws.map mkWfLine)) := hrl
  rw [collectRefsL_join _ hnl] at hrlJ
  obtain ⟨L, hLmem, hrlL⟩ := List.mem_flatten.1 hrlJ
  obtain ⟨l0, hl0, rfl⟩ := List.mem_map.1 hLmem
  obtain ⟨w, hwmem, rfl⟩ := List.mem_map.1 hl0
  have hne : ws ≠ [] := by
    intro hnil
    subst hnil
    exact absurd hwmem (List.not_mem_nil w)
  have hsplit : splitLines (mkWfOutline ws).data = ws.map mkWfLine :=
    splitLines_joinLines _ (fun hmape => hne (by simpa using hmape)) hnl
  refine ⟨?_, ?_, ?_, ?_⟩
  · rw [pruneAttributes_wf ws hw hne]
    exact hr
  · rw [removeNoise_wf ws hw hne]
    exact hr
  · unfold semanticCompress
    rw [hsplit]
    have hout : semanticCompressLine (mkWfLine w) ∈
        (ws.map mkWfLine).map semanticCompressLine :=
      List.mem_map_of_mem _ (List.mem_map_of_mem _ hwmem)
    obtain ⟨a, b, hab⟩ := joinLines_decomp _ _ hout
    have hrlout : rl ∈ collectRefsL (semanticCompressLine (mkWfLine w)) :=
      refs_line_preserved (hw w hwmem) (semanticCompressLine_cases (mkWfLine w)) hrlL
    have hrljoin : rl ∈ collectRefsL
        (joinLines ((ws.map mkWfLine).map semanticCompressLine)) := by
      rw [hab]
      exact collectRefsL_mono_left a (collectRefsL_mono_right b hrlout)
    simp only [collectRefsStr]
    exact hras ▸ List.mem_map_of_mem _ hrljoin
  · unfold truncateLongNames
    rw [hsplit]
    have hout : truncateLongNamesLine 120 (mkWfLine w) ∈
        (ws.map mkWfLine).map (truncateLongNamesLine 120) :=
      List.mem_map_of_mem _ (List.mem_map_of_mem _ hwmem)
    obtain ⟨a, b, hab⟩ := joinLines_decomp _ _ hout
    have hrlout : rl ∈ collectRefsL (truncateLongNamesLine 120 (mkWfLine w)) :=
      refs_line_preserved (hw w hwmem) (truncateLongNamesLine_cases 120 (mkWfLine w)) hrlL
    have hrljoin : rl ∈ collectRefsL
        (joinLines ((ws.map mkWfLine).map (truncateLongNamesLine 120))) := by
      rw [hab]
      exact collectRefsL_mono_left a (collectRefsL_mono_right b hrlout)
    simp only [collectRefsStr]
    exact hras ▸ List.mem_map_of_mem _ hrljoin

/-- C2 witness: a concrete two-line well-formed outline carrying `e1`. -/
theorem safe_reducers_preserve_refs_witness :
    (∀ w ∈ [wfW1, wfW2], wfCondB w = true) ∧
    "e1" ∈ collectRefsStr (mkWfOutline [wfW1, wfW2]) ∧
    ("e1" ∈ collectRefsStr (pruneAttributes (mkWfOutline [wfW1, wfW2])) ∧
     "e1" ∈ collectRefsStr (removeNoise (mkWfOutline [wfW1, wfW2])) ∧
     "e1" ∈ collectRefsStr (semanticCompress (mkWfOutline [wfW1, wfW2])) ∧
     "e1" ∈ collectRefsStr (truncateLongNames (mkWfOutline [wfW1, wfW2]))) :=
  ⟨by decide, by decide,
   safe_reducers_preserve_refs [wfW1, wfW2] (by decide) "e1" (by decide)⟩

end BetterBrowse
